import Mathlib

/-!
# Verification of the sourcify-go request-dispatch pipeline

A shallow embedding of the endpoint-descriptor model (`methods.go`), the
dispatcher with retry (`client.go`, rate-limited variant), the token-bucket
rate limiter (`client_rate_limiter.go`), the structured error decoding
(`errors.go`) and the tolerant response decoding (`methods_source.go`,
`methods_contract.go`), together with theorems about the behaviour of these
components.

Modelling conventions:
* Go `interface{}` parameter values are modelled by the closed sum
  `ParamValue`; runtime types other than the four supported ones are
  modelled by `ParamValue.other`, carrying the `reflect.TypeOf(...).String()`
  name and the `fmt.Sprintf("%v", ...)` rendering of the value, which are the
  only two observations the source makes of such values.
* Go `error` values are modelled as `Option String` / `Except String`,
  holding the exact `fmt.Errorf` message (with `%w` wrapping rendered as
  `prefix ++ ": " ++ inner`, which is how Go formats a wrapped error).
* The HTTP transport is modelled as a function from the (1-based) attempt
  number to the outcome of that attempt; response bodies are modelled at the
  granularity of parsed JSON documents (`Json`).
* `MethodParamType` is a Go `int`; it is modelled as `Int` so that values
  outside the three declared constants remain representable.
-/

namespace SourcifyGo

/-- JSON documents, the model of response-body bytes.  Numbers are carried
as integers; no decoder in the modelled code reads a numeric value, only the
kind of the JSON value. -/
inductive Json where
  | null : Json
  | bool (b : Bool) : Json
  | num (n : Int) : Json
  | str (s : String) : Json
  | arr (items : List Json) : Json
  | obj (fields : List (String × Json)) : Json

/-- Whether a JSON document is an array (the shape triggering the tolerant
fallback decode). -/
def Json.isArr : Json → Bool
  | .arr _ => true
  | _ => false

/-- The name `encoding/json` uses for the kind of a JSON value in its
`UnmarshalTypeError` messages. -/
def Json.kindName : Json → String
  | .null => "null"
  | .bool _ => "bool"
  | .num _ => "number"
  | .str _ => "string"
  | .arr _ => "array"
  | .obj _ => "object"

/-! ### Character-level string primitives

Several `String` functions of the Lean core library are defined by
well-founded recursion over byte positions and therefore do not reduce
inside the kernel.  The string operations the Go code uses
(`strings.ReplaceAll`, `strings.Contains`, `strings.HasPrefix`, slicing,
`ToLower`) are instead modelled structurally over the character list of the
string, which coincides with Go's byte-level behaviour because UTF-8
substring matches always align on character boundaries. -/

/-- Strip `pat` from the front of `s`, if it is a prefix. -/
def dropPrefixChars : List Char → List Char → Option (List Char)
  | [], s => some s
  | _ :: _, [] => none
  | p :: ps, c :: cs => if c = p then dropPrefixChars ps cs else none

/-- Whether `pat` is a prefix of `s` (Go `strings.HasPrefix`). -/
def hasPrefixChars (pat s : List Char) : Bool :=
  (dropPrefixChars pat s).isSome

/-- Whether `pat` occurs in `s` (Go `strings.Contains`). -/
def containsChars (pat : List Char) : List Char → Bool
  | [] => pat.isEmpty
  | c :: cs => hasPrefixChars pat (c :: cs) || containsChars pat cs

/-- Left-to-right, non-overlapping replacement of a non-empty pattern;
`fuel` bounds the scan and is instantiated with the input length. -/
def replaceLoopChars (pat rep : List Char) : Nat → List Char → List Char
  | _, [] => []
  | 0, s => s
  | fuel + 1, c :: cs =>
    match dropPrefixChars pat (c :: cs) with
    | some rest => rep ++ replaceLoopChars pat rep fuel rest
    | none => c :: replaceLoopChars pat rep fuel cs

/-- Go `strings.ReplaceAll(s, pat, rep)`; with an empty pattern Go inserts
the replacement before every character and at the end. -/
def goReplaceAll (s pat rep : String) : String :=
  if pat.data.isEmpty then
    ⟨rep.data ++ s.data.flatMap (fun c => c :: rep.data)⟩
  else
    ⟨replaceLoopChars pat.data rep.data s.data.length s.data⟩

/-- Go `strings.HasPrefix`. -/
def goStartsWith (s pre : String) : Bool :=
  hasPrefixChars pre.data s.data

/-- Go string slicing `s[n:]` (character-aligned). -/
def goDrop (s : String) (n : Nat) : String :=
  ⟨s.data.drop n⟩

/-- Drop `n` characters from the end of a string. -/
def goDropRight (s : String) (n : Nat) : String :=
  ⟨s.data.take (s.data.length - n)⟩

/-- Go `strings.ToLower` (ASCII-relevant part). -/
def goToLower (s : String) : String :=
  ⟨s.data.map Char.toLower⟩

/-- Go `strings.Contains` on strings. -/
def goContains (s pat : String) : Bool :=
  containsChars pat.data s.data

/-- Parameter values (`MethodParam.Value`, a Go `interface{}`).  The four
supported runtime types are explicit; `other` stands for any further runtime
type, identified by its `reflect` type name and its `%v` rendering. -/
inductive ParamValue where
  | str (s : String) : ParamValue
  | int (n : Int) : ParamValue
  | strList (xs : List String) : ParamValue
  | intList (xs : List Int) : ParamValue
  | other (typeName : String) (rendered : String) : ParamValue
deriving DecidableEq, Repr

/-- `reflect.TypeOf(v).String()` for a parameter value. -/
def ParamValue.typeName : ParamValue → String
  | .str _ => "string"
  | .int _ => "int"
  | .strList _ => "[]string"
  | .intList _ => "[]int"
  | .other t _ => t

/-- `fmt.Sprintf("%v", v)` for a parameter value. -/
def ParamValue.render : ParamValue → String
  | .str s => s
  | .int n => toString n
  | .strList xs => "[" ++ String.intercalate " " xs ++ "]"
  | .intList xs => "[" ++ String.intercalate " " (xs.map toString) ++ "]"
  | .other _ r => r

/-- The Go comparison `v == ""` on an `interface{}` value: true exactly when
the dynamic type is `string` and the value is empty (comparison between
distinct dynamic types yields `false`). -/
def ParamValue.eqEmptyString : ParamValue → Bool
  | .str s => s == ""
  | _ => false

/-- `MethodParam` (methods.go): a key/value parameter pair. -/
structure MethodParam where
  Key : String
  Value : ParamValue
deriving DecidableEq, Repr

/-- The declared `MethodParamType` constants (methods.go).  The type itself
is a Go `int` and is modelled as `Int`. -/
def methodParamTypeUri : Int := 0

/-- `MethodParamTypeQueryString` (methods.go). -/
def methodParamTypeQueryString : Int := 1

/-- `MethodParamTypeUriAndQueryString` (methods.go). -/
def methodParamTypeUriAndQueryString : Int := 2

/-- `MethodParamType.String()` (methods.go). -/
def methodParamTypeString (t : Int) : String :=
  if t == methodParamTypeUri then "MethodParamTypeUri"
  else if t == methodParamTypeQueryString then "MethodParamTypeQueryString"
  else if t == methodParamTypeUriAndQueryString then "MethodParamTypeUriAndQueryString"
  else "Unknown MethodParamType (" ++ toString t ++ ")"

/-- `Method` (methods.go): the endpoint descriptor.  The Go field `Method`
(the HTTP verb) is renamed `HttpMethod` here because Lean does not allow a
field to share the structure's name. -/
structure Method where
  Name : String
  HttpMethod : String
  URI : String
  MoreInfo : String
  ParamType : Int
  RequiredParams : List String
  Params : List MethodParam
deriving DecidableEq, Repr

/-- The inner loop of `Method.Verify` (methods.go): search the parameter
list for an entry whose key equals the required key. -/
def paramsHaveKey (ps : List MethodParam) (k : String) : Bool :=
  ps.any (fun p => p.Key == k)

/-- The outer loop of `Method.Verify`: walk `RequiredParams` in order and
report the first required key with no matching parameter entry. -/
def verifyLoop (ps : List MethodParam) : List String → Option String
  | [] => none
  | r :: rs =>
    if paramsHaveKey ps r then verifyLoop ps rs
    else some ("missing required parameter: " ++ r)

/-- `Method.Verify` (methods.go): `none` models a nil error. -/
def Method.verify (e : Method) : Option String :=
  verifyLoop e.Params e.RequiredParams

/-- `ErrInvalidParamType` (errors.go). -/
def errInvalidParamType (t : String) : String :=
  "encountered a parameter of invalid type: " ++ t

/-- The parameter loop of the `MethodParamTypeQueryString` branch of
`Method.ParseUri` (methods.go): collect `key=value` fragments, skipping
empty strings and empty lists, emitting integers unconditionally, and
aborting on the first unsupported runtime type. -/
def queryLoop : List MethodParam → Except String (List String)
  | [] => .ok []
  | p :: ps =>
    match p.Value with
    | .strList xs =>
      if xs.length > 0 then
        (queryLoop ps).map (fun r => (p.Key ++ "=" ++ String.intercalate "," xs) :: r)
      else queryLoop ps
    | .intList xs =>
      if xs.length > 0 then
        (queryLoop ps).map
          (fun r => (p.Key ++ "=" ++ String.intercalate "," (xs.map toString)) :: r)
      else queryLoop ps
    | .str s =>
      if s != "" then (queryLoop ps).map (fun r => (p.Key ++ "=" ++ s) :: r)
      else queryLoop ps
    | .int n => (queryLoop ps).map (fun r => (p.Key ++ "=" ++ toString n) :: r)
    | .other t _ => .error (errInvalidParamType t)

/-- The substitution loop of the `MethodParamTypeUri` branch of
`Method.ParseUri`: replace all occurrences of each parameter key in the URI
template by the `%v` rendering of its value; list values are unsupported. -/
def uriLoop (acc : String) : List MethodParam → Except String String
  | [] => .ok acc
  | p :: ps =>
    match p.Value with
    | .str s => uriLoop (goReplaceAll acc p.Key s) ps
    | .int n => uriLoop (goReplaceAll acc p.Key (toString n)) ps
    | v => .error (errInvalidParamType v.typeName)

/-- The path-substitution loop of the `MethodParamTypeUriAndQueryString`
branch of `Method.ParseUri`: walk `RequiredParams`, and for each entry
prefixed with ":" look up a supplied parameter under the key with or without
the prefix; a missing or empty value is an error, otherwise all occurrences
of the placeholder are replaced by the `%v` rendering of the value. -/
def pathSubstLoop (ps : List MethodParam) (acc : String) :
    List String → Except String String
  | [] => .ok acc
  | r :: rs =>
    if goStartsWith r ":" then
      let paramName := goDrop r 1
      match ps.find? (fun p => p.Key == paramName || p.Key == r) with
      | none => .error ("missing required path parameter: " ++ paramName)
      | some p =>
        if p.Value.eqEmptyString then
          .error ("missing required path parameter: " ++ paramName)
        else pathSubstLoop ps (goReplaceAll acc r p.Value.render) rs
    else pathSubstLoop ps acc rs

/-- The query-collection loop of the `MethodParamTypeUriAndQueryString`
branch of `Method.ParseUri`: every parameter whose key is not ":"-prefixed
and whose value is not the empty string contributes a `key=value` fragment
(rendered with `%v`), in declaration order. -/
def pathQueryFragments (ps : List MethodParam) : List String :=
  (ps.filter (fun p => !(goStartsWith p.Key ":") && !p.Value.eqEmptyString)).map
    (fun p => p.Key ++ "=" ++ p.Value.render)

/-- `Method.ParseUri` (methods.go). -/
def Method.parseUri (e : Method) : Except String String :=
  if e.ParamType == methodParamTypeQueryString then
    (queryLoop e.Params).map
      (fun params =>
        if params.length > 0 then "?" ++ String.intercalate "&" params else "")
  else if e.ParamType == methodParamTypeUri then
    uriLoop e.URI e.Params
  else if e.ParamType == methodParamTypeUriAndQueryString then
    (pathSubstLoop e.Params e.URI e.RequiredParams).map
      (fun toReturn =>
        let params := pathQueryFragments e.Params
        if params.length > 0 then
          toReturn ++ "?" ++ String.intercalate "&" params
        else toReturn)
  else
    .error ("invalid MethodParamType: " ++ methodParamTypeString e.ParamType)

/-! ## `url.Values` and query-string encoding

`callQueryMethod` (client.go) builds its query string through
`Method.GetQueryParams` and `url.Values.Encode` from the Go standard
library.  `url.Values` is a `map[string][]string`; it is modelled as an
association list whose keys are kept unique by `valuesAdd` / `valuesSet`,
which is faithful because `Encode` is insensitive to entry order (it sorts
the keys). -/

/-- The model of `url.Values`. -/
abbrev Values := List (String × List String)

/-- `url.Values.Add`: append one value to the list stored under a key,
creating the entry if absent. -/
def valuesAdd (v : Values) (key val : String) : Values :=
  match v with
  | [] => [(key, [val])]
  | (k, vs) :: rest =>
    if k == key then (k, vs ++ [val]) :: rest
    else (k, vs) :: valuesAdd rest key val

/-- `url.Values.Set`: replace the entry under a key with a single value,
creating it if absent. -/
def valuesSet (v : Values) (key val : String) : Values :=
  match v with
  | [] => [(key, [val])]
  | (k, vs) :: rest =>
    if k == key then (k, [val]) :: rest
    else (k, vs) :: valuesSet rest key val

/-- UTF-8 encoding of one character, as the list of its byte values;
`url.QueryEscape` operates on the UTF-8 bytes of its argument. -/
def utf8Bytes (c : Char) : List Nat :=
  let n := c.toNat
  if n < 0x80 then [n]
  else if n < 0x800 then
    [0xC0 + n / 64, 0x80 + n % 64]
  else if n < 0x10000 then
    [0xE0 + n / 4096, 0x80 + (n / 64) % 64, 0x80 + n % 64]
  else
    [0xF0 + n / 262144, 0x80 + (n / 4096) % 64, 0x80 + (n / 64) % 64, 0x80 + n % 64]

/-- Go `shouldEscape(c, encodeQueryComponent)` from `net/url`, negated:
alphanumerics and `-_.~` stay unescaped in query components. -/
def isUnreservedQueryByte (b : Nat) : Bool :=
  (0x41 ≤ b && b ≤ 0x5A) || (0x61 ≤ b && b ≤ 0x7A) || (0x30 ≤ b && b ≤ 0x39) ||
    b == 0x2D || b == 0x5F || b == 0x2E || b == 0x7E

/-- Upper-case hexadecimal digit, as used by `net/url` percent-escaping. -/
def hexDigitUpper (n : Nat) : Char :=
  if n < 10 then Char.ofNat (48 + n) else Char.ofNat (55 + n)

/-- Escape a single byte for a query component (`net/url`): unreserved
bytes pass through, a space becomes `+`, everything else becomes `%XX`. -/
def escapeQueryByte (b : Nat) : String :=
  if isUnreservedQueryByte b then String.singleton (Char.ofNat b)
  else if b == 0x20 then "+"
  else "%" ++ String.singleton (hexDigitUpper (b / 16)) ++
    String.singleton (hexDigitUpper (b % 16))

/-- `url.QueryEscape` from `net/url`. -/
def queryEscape (s : String) : String :=
  String.join ((s.data.flatMap utf8Bytes).map escapeQueryByte)

/-- Go's string ordering (byte-wise lexicographic; on UTF-8 data this
coincides with the character-wise lexicographic order used here). -/
def charListLe : List Char → List Char → Bool
  | [], _ => true
  | _ :: _, [] => false
  | a :: as, b :: bs =>
    if a.toNat == b.toNat then charListLe as bs else Nat.blt a.toNat b.toNat

/-- Go `a <= b` on strings. -/
def goStringLe (a b : String) : Bool :=
  charListLe a.data b.data

/-- Insert a string into a sorted list (the sort below). -/
def insertSorted (x : String) : List String → List String
  | [] => [x]
  | y :: ys => if goStringLe x y then x :: y :: ys else y :: insertSorted x ys

/-- The string sort used by `url.Values.Encode` (Go sorts the map keys
into byte-wise lexicographic order; any comparison sort yields this same
list). -/
def sortStrings : List String → List String
  | [] => []
  | x :: xs => insertSorted x (sortStrings xs)

/-- `url.Values.Encode` from `net/url`: emit `key=value` pairs, keys in
sorted order, each key and value query-escaped, joined with `&`. -/
def valuesEncode (v : Values) : String :=
  String.intercalate "&"
    ((sortStrings (v.map Prod.fst)).flatMap (fun k =>
      match v.find? (fun e => e.1 == k) with
      | some (_, vs) => vs.map (fun val => queryEscape k ++ "=" ++ queryEscape val)
      | none => []))

/-- The loop body of `Method.GetQueryParams` (methods.go): strings go in
via `Set`, integers and lists (comma-joined) via `Add`; a value of any
other runtime type matches no case of the type switch and is skipped. -/
def getQueryParamsStep (v : Values) (p : MethodParam) : Values :=
  match p.Value with
  | .strList xs => valuesAdd v p.Key (String.intercalate "," xs)
  | .intList xs => valuesAdd v p.Key (String.intercalate "," (xs.map toString))
  | .str s => valuesSet v p.Key s
  | .int n => valuesAdd v p.Key (toString n)
  | .other _ _ => v

/-- `Method.GetQueryParams` (methods.go): populate a `url.Values` from the
parameter list; only query-string and uri-and-query-string descriptors
contribute entries. -/
def Method.getQueryParams (e : Method) : Values :=
  if e.ParamType == methodParamTypeQueryString ||
      e.ParamType == methodParamTypeUriAndQueryString then
    e.Params.foldl getQueryParamsStep []
  else []

/-! ## The dispatcher (client.go, rate-limited variant)

The HTTP transport is a function from the 1-based attempt number to that
attempt's outcome.  `url.Parse`, `url.JoinPath` and `http.NewRequest` are
modelled as total: no claim observes the request URL or their failure
modes, and the base URLs used by the library parse successfully. -/

/-- One attempt's outcome at the transport: either a connection-level
failure of `http.Client.Do`, or a response with a status code, the
`resp.Status` text, and a body. -/
inductive TransportResult where
  | failure : TransportResult
  | response (status : Nat) (statusText : String) (body : Json) : TransportResult

/-- The transport: outcome of each (1-based) attempt. -/
def Transport := Nat → TransportResult

/-- `RetryOptions` (client.go).  `MaxRetries` is a Go `int`; `Delay` is a
`time.Duration`, modelled as a natural number of nanoseconds. -/
structure RetryOptions where
  MaxRetries : Int
  Delay : Nat
deriving DecidableEq, Repr

/-- `Client` (client.go).  The HTTP transport is supplied per call in this
model; it is the only behaviour of `HTTPClient` the code observes, and the
rate limiter does not alter any returned value, so it carries no state
here. -/
structure Client where
  BaseURL : String
  RetryOptions : RetryOptions
deriving DecidableEq, Repr

/-- `NewClient` with no options (client.go): default base URL and zero
retry options. -/
def newClient : Client :=
  { BaseURL := "https://sourcify.dev/server", RetryOptions := ⟨0, 0⟩ }

/-- The observable outcome of `doRequestWithRetry` / `CallMethod`: the Go
triple `(io.ReadCloser, int, error)` plus instrumentation (number of
transport attempts made, total time slept between attempts) that the
theorems use to express "no network call" and "slept the configured
delay". -/
structure CallResult where
  body : Option Json
  status : Nat
  error : Option String
  rawQuery : String
  attempts : Nat
  totalSleep : Nat

/-- The retry loop of `doRequestWithRetry` (client.go), unrolled on the
number of retries still allowed.  At attempt number `a` the Go guard
`attempt <= c.RetryOptions.MaxRetries` holds iff `retriesLeft > 0` for
`retriesLeft = MaxRetries.toNat - (a - 1)`, which is how the two callers
below instantiate it. -/
def retryLoop (transport : Transport) (delay : Nat) :
    Nat → Nat → Nat → CallResult
  | attempt, retriesLeft, slept =>
    match transport attempt with
    | .failure =>
      match retriesLeft with
      | r + 1 => retryLoop transport delay (attempt + 1) r (slept + delay)
      | 0 =>
        { body := none, status := 0,
          error := some "failed to send HTTP request: transport error",
          rawQuery := "", attempts := attempt, totalSleep := slept }
    | .response s txt b =>
      if s == 200 then
        { body := some b, status := s, error := none,
          rawQuery := "", attempts := attempt, totalSleep := slept }
      else
        match retriesLeft with
        | r + 1 => retryLoop transport delay (attempt + 1) r (slept + delay)
        | 0 =>
          { body := none, status := s,
            error := some ("unexpected response status: " ++ txt),
            rawQuery := "", attempts := attempt, totalSleep := slept }

/-- `Client.doRequestWithRetry` (client.go). -/
def Client.doRequestWithRetry (c : Client) (transport : Transport) : CallResult :=
  retryLoop transport c.RetryOptions.Delay 1 c.RetryOptions.MaxRetries.toNat 0

/-- `Client.callURIMethod` (client.go): render via `ParseUri` (a rendering
failure is wrapped and no request is sent), then dispatch.  The request URL
carries no query string (`RawQuery` is never assigned on this path). -/
def Client.callURIMethod (c : Client) (m : Method) (transport : Transport) :
    CallResult :=
  match m.parseUri with
  | .error e =>
    { body := none, status := 0,
      error := some ("failed to parse method parameters: " ++ e),
      rawQuery := "", attempts := 0, totalSleep := 0 }
  | .ok _ => c.doRequestWithRetry transport

/-- `Client.callQueryMethod` (client.go): the query string is built from
`GetQueryParams` via `url.Values.Encode` and set as the request URL's
`RawQuery`; then dispatch. -/
def Client.callQueryMethod (c : Client) (m : Method) (transport : Transport) :
    CallResult :=
  { c.doRequestWithRetry transport with
    rawQuery := valuesEncode m.getQueryParams }

/-- `Client.CallMethod` (client.go): route on the descriptor's parameter
kind; only `MethodParamTypeUri` and `MethodParamTypeQueryString` are
dispatched, every other kind — including the declared
`MethodParamTypeUriAndQueryString` — is rejected without a network call. -/
def Client.callMethod (c : Client) (m : Method) (transport : Transport) :
    CallResult :=
  if m.ParamType == methodParamTypeUri then
    c.callURIMethod m transport
  else if m.ParamType == methodParamTypeQueryString then
    c.callQueryMethod m transport
  else
    { body := none, status := 0,
      error := some ("invalid MethodParamType: " ++ methodParamTypeString m.ParamType),
      rawQuery := "", attempts := 0, totalSleep := 0 }

/-! ## JSON decoding (`encoding/json` semantics)

Decoding targets mirror the Go structs.  The model reproduces the
`encoding/json` behaviour the code observes: a JSON `null` leaves the
target untouched (and sets a pointer target to nil), object keys are
matched to struct fields case-insensitively with later duplicates
overwriting earlier ones, unknown keys are ignored, and a kind mismatch
produces an `UnmarshalTypeError` whose message names the JSON kind and the
target ("into Go value of type T" at top level, "into Go struct field F of
type T" below it).  A type error aborts the decode here; Go records it and
keeps scanning, but the caller sees the same first error and discards the
partial result, so the observable outcome agrees. -/

/-- Decode each element of a list, stopping at the first failure — the
element traversal of `encoding/json` array decoding, specialised to
`Except`. -/
def mapMExcept (f : α → Except ε β) : List α → Except ε (List β)
  | [] => .ok []
  | x :: xs =>
    match f x with
    | .error e => .error e
    | .ok y => (mapMExcept f xs).map (fun ys => y :: ys)

/-- Top-level `UnmarshalTypeError` message. -/
def topLevelTypeErr (kind typ : String) : String :=
  "json: cannot unmarshal " ++ kind ++ " into Go value of type " ++ typ

/-- Struct-field `UnmarshalTypeError` message. -/
def fieldTypeErr (kind field typ : String) : String :=
  "json: cannot unmarshal " ++ kind ++ " into Go struct field " ++ field ++
    " of type " ++ typ

/-- Decode a JSON value into a `string` struct field: strings are taken,
`null` keeps the current value, anything else is a type error. -/
def decodeStringField (field : String) (cur : String) : Json → Except String String
  | .str s => .ok s
  | .null => .ok cur
  | j => .error (fieldTypeErr j.kindName field "string")

/-- `SourceCode` (methods_source.go). -/
structure SourceCode where
  Name : String
  Path : String
  Content : String
deriving DecidableEq, Repr

/-- `SourceCodes` (methods_source.go): the `{status, files}` envelope. -/
structure SourceCodes where
  Status : String
  Code : List SourceCode
deriving DecidableEq, Repr

/-- The field loop for one `SourceCode` object: object keys in order,
matched case-insensitively, later duplicates overwriting. -/
def decodeSourceCodeFields (path : String) (acc : SourceCode) :
    List (String × Json) → Except String SourceCode
  | [] => .ok acc
  | (k, v) :: rest =>
    if goToLower k == "name" then
      match decodeStringField (path ++ "name") acc.Name v with
      | .ok s => decodeSourceCodeFields path { acc with Name := s } rest
      | .error e => .error e
    else if goToLower k == "path" then
      match decodeStringField (path ++ "path") acc.Path v with
      | .ok s => decodeSourceCodeFields path { acc with Path := s } rest
      | .error e => .error e
    else if goToLower k == "content" then
      match decodeStringField (path ++ "content") acc.Content v with
      | .ok s => decodeSourceCodeFields path { acc with Content := s } rest
      | .error e => .error e
    else decodeSourceCodeFields path acc rest

/-- Decode one element of a `[]SourceCode`: an object is decoded field by
field, `null` yields the zero value; `elemErr` renders the kind-mismatch
message for this slice's position (top level or under a struct field). -/
def decodeSourceCodeElem (path : String) (elemErr : String → String) :
    Json → Except String SourceCode
  | .null => .ok ⟨"", "", ""⟩
  | .obj fields => decodeSourceCodeFields path ⟨"", "", ""⟩ fields
  | j => .error (elemErr j.kindName)

/-- Decode a JSON value into the `files []SourceCode` field of the
envelope. -/
def decodeFilesField : Json → Except String (List SourceCode)
  | .null => .ok []
  | .arr items =>
    mapMExcept
      (decodeSourceCodeElem "SourceCodes.files."
        (fun kind => fieldTypeErr kind "SourceCodes.files" "sourcify.SourceCode"))
      items
  | j => .error (fieldTypeErr j.kindName "SourceCodes.files" "[]sourcify.SourceCode")

/-- The field loop for the `SourceCodes` envelope object. -/
def decodeSourceCodesFields (acc : SourceCodes) :
    List (String × Json) → Except String SourceCodes
  | [] => .ok acc
  | (k, v) :: rest =>
    if goToLower k == "status" then
      match decodeStringField "SourceCodes.status" acc.Status v with
      | .ok s => decodeSourceCodesFields { acc with Status := s } rest
      | .error e => .error e
    else if goToLower k == "files" then
      match decodeFilesField v with
      | .ok l => decodeSourceCodesFields { acc with Code := l } rest
      | .error e => .error e
    else decodeSourceCodesFields acc rest

/-- `json.Unmarshal(body, &toReturn)` for `toReturn *SourceCodes` (a
pointer target): `null` sets the pointer to nil (`ok none`), an object is
decoded into the struct, any other kind is a top-level type error. -/
def decodeSourceCodesPtr : Json → Except String (Option SourceCodes)
  | .null => .ok none
  | .obj fields =>
    (decodeSourceCodesFields ⟨"", []⟩ fields).map some
  | j => .error (topLevelTypeErr j.kindName "sourcify.SourceCodes")

/-- `json.Unmarshal(body, &toReturn.Code)` for `[]SourceCode` at top
level (the fallback decode). -/
def decodeSourceCodeList : Json → Except String (List SourceCode)
  | .null => .ok []
  | .arr items =>
    mapMExcept
      (decodeSourceCodeElem ""
        (fun kind => topLevelTypeErr kind "sourcify.SourceCode"))
      items
  | j => .error (topLevelTypeErr j.kindName "[]sourcify.SourceCode")

/-- The tolerant decode of `GetContractSourceCode` (methods_source.go):
decode the envelope; if that fails with an error whose message contains
`"cannot unmarshal array into Go value"`, set the status to `"unknown"`
and re-decode the same bytes directly into the file list; any other
failure propagates. -/
def decodeSourceCodesTolerant (body : Json) : Except String (Option SourceCodes) :=
  match decodeSourceCodesPtr body with
  | .ok v => .ok v
  | .error e =>
    if goContains e "cannot unmarshal array into Go value" then
      match decodeSourceCodeList body with
      | .ok code => .ok (some { Status := "unknown", Code := code })
      | .error e2 => .error e2
    else .error e

/-- `ErrorResponse` (errors.go).  `ErrorId` is a `uuid.UUID`; the model
keeps the textual form, whose validity is checked on decode. -/
structure ErrorResponse where
  ErrorId : String
  CustomCode : String
  Message : String
deriving DecidableEq, Repr

/-- Hexadecimal digit test, as accepted by `uuid.Parse`. -/
def isHexChar (c : Char) : Bool :=
  c.isDigit || (97 ≤ c.toNat && c.toNat ≤ 102) || (65 ≤ c.toNat && c.toNat ≤ 70)

/-- The canonical `8-4-4-4-12` UUID shape: 36 characters, dashes at
positions 8, 13, 18 and 23, hexadecimal digits everywhere else. -/
def isCanonicalUUID (cs : List Char) : Bool :=
  cs.length == 36 &&
    cs.enum.all (fun ic =>
      if ic.1 == 8 || ic.1 == 13 || ic.1 == 18 || ic.1 == 23 then ic.2 == '-'
      else isHexChar ic.2)

/-- Validity of a textual UUID for `uuid.Parse` (github.com/google/uuid):
the canonical `8-4-4-4-12` form, optionally wrapped in braces or prefixed
with `urn:uuid:`, or 32 plain hexadecimal digits. -/
def isValidUUID (s : String) : Bool :=
  if s.data.length == 36 then isCanonicalUUID s.data
  else if s.data.length == 45 && goStartsWith s "urn:uuid:" then
    isCanonicalUUID (goDrop s 9).data
  else if s.data.length == 38 then isCanonicalUUID (goDropRight (goDrop s 1) 1).data
  else if s.data.length == 32 then s.data.all isHexChar
  else false

/-- Decode a JSON value into the `errorId uuid.UUID` field:
`encoding/json` feeds a string to `UnmarshalText`, which fails on an
invalid UUID; `null` keeps the zero UUID; a non-string is a type error. -/
def decodeErrorIdField (cur : String) : Json → Except String String
  | .str s => if isValidUUID s then .ok s else .error "invalid UUID format"
  | .null => .ok cur
  | j => .error (fieldTypeErr j.kindName "ErrorResponse.errorId" "uuid.UUID")

/-- The field loop for an `ErrorResponse` object. -/
def decodeErrorResponseFields (acc : ErrorResponse) :
    List (String × Json) → Except String ErrorResponse
  | [] => .ok acc
  | (k, v) :: rest =>
    if goToLower k == "errorid" then
      match decodeErrorIdField acc.ErrorId v with
      | .ok s => decodeErrorResponseFields { acc with ErrorId := s } rest
      | .error e => .error e
    else if goToLower k == "customcode" then
      match decodeStringField "ErrorResponse.customCode" acc.CustomCode v with
      | .ok s => decodeErrorResponseFields { acc with CustomCode := s } rest
      | .error e => .error e
    else if goToLower k == "message" then
      match decodeStringField "ErrorResponse.message" acc.Message v with
      | .ok s => decodeErrorResponseFields { acc with Message := s } rest
      | .error e => .error e
    else decodeErrorResponseFields acc rest

/-- `json.NewDecoder(response).Decode(&errorResp)` for a stack-allocated
`ErrorResponse`. -/
def decodeErrorResponse : Json → Except String ErrorResponse
  | .null => .ok ⟨"", "", ""⟩
  | .obj fields => decodeErrorResponseFields ⟨"", "", ""⟩ fields
  | j => .error (topLevelTypeErr j.kindName "sourcify.ErrorResponse")

/-- `ToErrorResponse` (errors.go): decode the body as an `ErrorResponse`;
only a successful decode with a non-empty message yields an error value.
`none` for the body models a nil or empty response stream, whose decode
fails. -/
def toErrorResponse (body : Option Json) : Option String :=
  match body with
  | none => none
  | some j =>
    match decodeErrorResponse j with
    | .error _ => none
    | .ok er =>
      if er.Message != "" then
        some ("sourcify returned error (" ++ er.CustomCode ++ "): " ++ er.Message)
      else none

/-! ## Endpoint descriptors used by the modelled operations -/

/-- `MethodSourceFilesFullOrPartialMatch` (methods_source.go). -/
def methodSourceFilesFullOrPartialMatch : Method :=
  { Name := "Get source files for the address full or partial match"
    URI := "/files/any/:chain/:address"
    MoreInfo := "https://docs.sourcify.dev/docs/api/server/get-source-files-all/"
    HttpMethod := "GET"
    ParamType := methodParamTypeUri
    RequiredParams := [":chain", ":address"]
    Params := [⟨":chain", .str ""⟩, ⟨":address", .str ""⟩] }

/-- `MethodSourceFilesFullMatch` (methods_source.go). -/
def methodSourceFilesFullMatch : Method :=
  { Name := "Get source files for the address full match"
    URI := "/files/:chain/:address"
    MoreInfo := "https://docs.sourcify.dev/docs/api/server/get-source-files-full/"
    HttpMethod := "GET"
    ParamType := methodParamTypeUri
    RequiredParams := [":chain", ":address"]
    Params := [⟨":chain", .str ""⟩, ⟨":address", .str ""⟩] }

/-- `MethodGetContractByChainIdAndAddress` (methods_contract.go). -/
def methodGetContractByChainIdAndAddress : Method :=
  { Name := "Get contract by chain id and address"
    URI := "/v2/contract/:chain/:address"
    MoreInfo := "https://docs.sourcify.dev/docs/api/#/Contract%20Lookup/get-contract"
    HttpMethod := "GET"
    ParamType := methodParamTypeUriAndQueryString
    RequiredParams := [":chain", ":address"]
    Params := [⟨"fields", .str ""⟩, ⟨"omit", .str ""⟩] }

/-- `MethodGetContractByChainId` (methods_contract.go). -/
def methodGetContractByChainId : Method :=
  { Name := "List through all contracts for the chain"
    URI := "/v2/contracts/:chain"
    MoreInfo := "https://docs.sourcify.dev/docs/api/#/Contract%20Lookup/get-v2-contracts-chainId"
    HttpMethod := "GET"
    ParamType := methodParamTypeUriAndQueryString
    RequiredParams := [":chain"]
    Params := [⟨"fields", .str ""⟩] }

/-- `MethodMatchTypeFull` / `MethodMatchTypeAny` / `MethodMatchTypePartial`
(methods.go): `MethodMatchType` is a Go string type. -/
def methodMatchTypeFull : String := "full"

/-- `MethodMatchTypeAny` (methods.go). -/
def methodMatchTypeAny : String := "any"

/-- `MethodMatchTypePartial` (methods.go). -/
def methodMatchTypePartial : String := "partial"

/-! ## Operations -/

/-- The match-type switch of `GetContractSourceCode` (methods_source.go):
which descriptor an accepted match type selects. -/
def sourceCodeMethodFor (matchType : String) : Option Method :=
  if matchType == methodMatchTypeFull then some methodSourceFilesFullMatch
  else if matchType == methodMatchTypePartial then some methodSourceFilesFullOrPartialMatch
  else if matchType == methodMatchTypeAny then some methodSourceFilesFullOrPartialMatch
  else none

/-- The descriptor `GetContractSourceCode` dispatches: the selected
template with `SetParams(:chain, :address)` applied.  `addressHex` models
`contract.Hex()`, the checksummed textual address. -/
def sourceCodeMethod (chainId : Int) (addressHex : String) (matchType : String) :
    Option Method :=
  (sourceCodeMethodFor matchType).map
    (fun m => { m with Params := [⟨":chain", .int chainId⟩, ⟨":address", .str addressHex⟩] })

/-- `GetContractSourceCode` (methods_source.go): select and fill the
descriptor, verify it, dispatch, require status 200, then decode the body
with the tolerant envelope/bare-array fallback.  The result models the Go
pair `(*SourceCodes, error)`. -/
def getContractSourceCode (c : Client) (transport : Transport) (chainId : Int)
    (addressHex : String) (matchType : String) :
    Option SourceCodes × Option String :=
  match sourceCodeMethod chainId addressHex matchType with
  | none => (none, some ("invalid match type: " ++ matchType))
  | some method =>
    match method.verify with
    | some e => (none, some e)
    | none =>
      let r := c.callMethod method transport
      match r.error with
      | some e => (none, some e)
      | none =>
        match r.body with
        | none => (none, some "unexpected end of JSON input")
        | some body =>
          if r.status != 200 then
            (none, some ("unexpected status code: " ++ toString r.status))
          else
            match decodeSourceCodesTolerant body with
            | .error e => (none, some e)
            | .ok v => (v, none)

/-- `ContractBaseResponse` (methods_contract.go).  `VerifiedAt` is a
`time.Time`; the model keeps the textual form, validated on decode. -/
structure ContractBaseResponse where
  Address : String
  ChainID : String
  CreationMatch : String
  Match : String
  MatchID : String
  RuntimeMatch : String
  VerifiedAt : String
deriving DecidableEq, Repr

/-- `ContractsResponse` (methods_contract.go). -/
structure ContractsResponse where
  Results : List ContractBaseResponse
deriving DecidableEq, Repr

/-- Shape check standing in for `time.Parse(time.RFC3339, s)` on the
decode of a `time.Time` field: `YYYY-MM-DDTHH:MM:SS`, an optional
fractional part, and `Z` or a `±HH:MM` offset. -/
def isRFC3339 (s : String) : Bool :=
  let cs := s.data
  let digitsAt := fun (l : List Char) (n : Nat) => (l.take n).length == n && (l.take n).all Char.isDigit
  let date := digitsAt cs 4 && cs.drop 4 != [] &&
    (match cs.drop 4 with
     | '-' :: rest1 =>
       digitsAt rest1 2 &&
       (match rest1.drop 2 with
        | '-' :: rest2 =>
          digitsAt rest2 2 &&
          (match rest2.drop 2 with
           | 'T' :: rest3 =>
             digitsAt rest3 2 &&
             (match rest3.drop 2 with
              | ':' :: rest4 =>
                digitsAt rest4 2 &&
                (match rest4.drop 2 with
                 | ':' :: rest5 =>
                   digitsAt rest5 2 &&
                   (let tail := rest5.drop 2
                    let afterFrac :=
                      match tail with
                      | '.' :: f => f.dropWhile Char.isDigit
                      | _ => tail
                    match afterFrac with
                    | ['Z'] => true
                    | sign :: o =>
                      (sign == '+' || sign == '-') && digitsAt o 2 &&
                        (match o.drop 2 with
                         | ':' :: o2 => digitsAt o2 2 && o2.drop 2 == []
                         | _ => false)
                    | [] => false)
                 | _ => false)
              | _ => false)
           | _ => false)
        | _ => false)
     | _ => false)
  date

/-- Decode a JSON value into a `time.Time` struct field: a string must
parse as RFC3339; `null` keeps the current value; a non-string is a type
error. -/
def decodeTimeField (cur : String) : Json → Except String String
  | .str s =>
    if isRFC3339 s then .ok s
    else .error ("parsing time " ++ s ++ " as RFC3339: cannot parse")
  | .null => .ok cur
  | j => .error (fieldTypeErr j.kindName "ContractBaseResponse.verifiedAt" "time.Time")

/-- The field loop for one `ContractBaseResponse` object. -/
def decodeContractBaseFields (acc : ContractBaseResponse) :
    List (String × Json) → Except String ContractBaseResponse
  | [] => .ok acc
  | (k, v) :: rest =>
    if goToLower k == "address" then
      match decodeStringField "ContractBaseResponse.address" acc.Address v with
      | .ok s => decodeContractBaseFields { acc with Address := s } rest
      | .error e => .error e
    else if goToLower k == "chainid" then
      match decodeStringField "ContractBaseResponse.chainId" acc.ChainID v with
      | .ok s => decodeContractBaseFields { acc with ChainID := s } rest
      | .error e => .error e
    else if goToLower k == "creationmatch" then
      match decodeStringField "ContractBaseResponse.creationMatch" acc.CreationMatch v with
      | .ok s => decodeContractBaseFields { acc with CreationMatch := s } rest
      | .error e => .error e
    else if goToLower k == "match" then
      match decodeStringField "ContractBaseResponse.match" acc.Match v with
      | .ok s => decodeContractBaseFields { acc with Match := s } rest
      | .error e => .error e
    else if goToLower k == "matchid" then
      match decodeStringField "ContractBaseResponse.matchId" acc.MatchID v with
      | .ok s => decodeContractBaseFields { acc with MatchID := s } rest
      | .error e => .error e
    else if goToLower k == "runtimematch" then
      match decodeStringField "ContractBaseResponse.runtimeMatch" acc.RuntimeMatch v with
      | .ok s => decodeContractBaseFields { acc with RuntimeMatch := s } rest
      | .error e => .error e
    else if goToLower k == "verifiedat" then
      match decodeTimeField acc.VerifiedAt v with
      | .ok s => decodeContractBaseFields { acc with VerifiedAt := s } rest
      | .error e => .error e
    else decodeContractBaseFields acc rest

/-- Decode one element of `results []ContractBaseResponse`. -/
def decodeContractBaseElem : Json → Except String ContractBaseResponse
  | .null => .ok ⟨"", "", "", "", "", "", ""⟩
  | .obj fields => decodeContractBaseFields ⟨"", "", "", "", "", "", ""⟩ fields
  | j =>
    .error (fieldTypeErr j.kindName "ContractsResponse.results"
      "sourcify.ContractBaseResponse")

/-- The field loop for the `ContractsResponse` object. -/
def decodeContractsResponseFields (acc : ContractsResponse) :
    List (String × Json) → Except String ContractsResponse
  | [] => .ok acc
  | (k, v) :: rest =>
    if goToLower k == "results" then
      match v with
      | .null => decodeContractsResponseFields acc rest
      | .arr items =>
        match mapMExcept decodeContractBaseElem items with
        | .ok l => decodeContractsResponseFields { acc with Results := l } rest
        | .error e => .error e
      | j =>
        .error (fieldTypeErr j.kindName "ContractsResponse.results"
          "[]sourcify.ContractBaseResponse")
    else decodeContractsResponseFields acc rest

/-- `json.NewDecoder(response).Decode(&toReturn)` for
`toReturn *ContractsResponse` (a pointer target): `null` yields a nil
pointer. -/
def decodeContractsResponsePtr : Json → Except String (Option ContractsResponse)
  | .null => .ok none
  | .obj fields => (decodeContractsResponseFields ⟨[]⟩ fields).map some
  | j => .error (topLevelTypeErr j.kindName "sourcify.ContractsResponse")

/-- The descriptor `GetContractsByChainId` dispatches:
`MethodGetContractByChainId` with `SetParams` applied. -/
def contractsByChainIdMethod (chainId : Int) (sort afterMatchId : String)
    (limit : Int) : Method :=
  { methodGetContractByChainId with
    Params := [⟨":chain", .int chainId⟩, ⟨"sort", .str sort⟩,
      ⟨"afterMatchId", .str afterMatchId⟩, ⟨"limit", .int limit⟩] }

/-- `GetContractsByChainId` (methods_contract.go): fill and verify the
descriptor, dispatch through `CallMethod`, and — only when `CallMethod`
reported no error — check the status, attempting the structured
`ToErrorResponse` decode on a non-200 status before falling back to the
generic status-code error; a 200 body is decoded as a
`*ContractsResponse`.  The result models the Go pair
`(*ContractsResponse, error)`. -/
def getContractsByChainId (c : Client) (transport : Transport) (chainId : Int)
    (sort afterMatchId : String) (limit : Int) :
    Option ContractsResponse × Option String :=
  let method := contractsByChainIdMethod chainId sort afterMatchId limit
  match method.verify with
  | some e => (none, some e)
  | none =>
    let r := c.callMethod method transport
    match r.error with
    | some e => (none, some e)
    | none =>
      if r.status != 200 then
        match toErrorResponse r.body with
        | some rErr => (none, some rErr)
        | none => (none, some ("unexpected status code: " ++ toString r.status))
      else
        match r.body with
        | none => (none, some "EOF")
        | some body =>
          match decodeContractsResponsePtr body with
          | .error e => (none, some e)
          | .ok v => (v, none)

/-! ## Rate limiter (client_rate_limiter.go)

`NewRateLimiter(max, duration)` builds a buffered channel of capacity
`max`, pre-fills it with `max` tokens, and starts a ticker goroutine that
sends one token per period.  The channel is modelled as a counter bounded
by its capacity: a ticker send (`replenish`) is only enabled while the
buffer has room, and `Wait` (a receive) is only enabled while a token is
present — a disabled event models the corresponding goroutine blocking. -/

/-- Events on the token-bucket channel. -/
inductive RLEvent where
  | replenish : RLEvent
  | wait : RLEvent
deriving DecidableEq, Repr

/-- One enabled transition of the bucket: `replenish` (the ticker's send)
requires room and adds a token; `wait` (a receive) requires a token and
removes it. -/
def rlStep (max : Nat) : Nat → RLEvent → Option Nat
  | tokens, .replenish => if tokens < max then some (tokens + 1) else none
  | tokens, .wait => if 0 < tokens then some (tokens - 1) else none

/-- Run a sequence of events from a state; `none` means some event was not
enabled (its goroutine would still be blocked). -/
def rlRun (max : Nat) : Nat → List RLEvent → Option Nat
  | tokens, [] => some tokens
  | tokens, ev :: evs =>
    match rlStep max tokens ev with
    | some t => rlRun max t evs
    | none => none

/-- `NewRateLimiter` (client_rate_limiter.go): the bucket starts filled to
its capacity — the constructor sends `max` tokens into the fresh channel of
capacity `max`. -/
def rlInit (max : Nat) : Nat := max

/-! ## Specification-side definitions

The following definitions transcribe the specification's wording of the
rendering contracts; the theorems below compare them with the translated
source functions. -/

/-- Whether a parameter value has one of the unsupported runtime types. -/
def ParamValue.isOther : ParamValue → Bool
  | .other _ _ => true
  | _ => false

/-- Whether a transport attempt fails in the retry loop's sense: a
connection-level error, or any non-200 status. -/
def attemptFails : TransportResult → Bool
  | .failure => true
  | .response s _ _ => s != 200

/-- Spec, QueryOnly rendering: the fragment one parameter contributes — a
non-empty string as `key=value`, a non-empty list comma-joined, an integer
unconditionally, and nothing for empty strings and empty lists. -/
def specQueryFragment (p : MethodParam) : Option String :=
  match p.Value with
  | .str s => if s = "" then none else some (p.Key ++ "=" ++ s)
  | .strList xs =>
    if xs = [] then none else some (p.Key ++ "=" ++ String.intercalate "," xs)
  | .intList xs =>
    if xs = [] then none
    else some (p.Key ++ "=" ++ String.intercalate "," (xs.map toString))
  | .int n => some (p.Key ++ "=" ++ toString n)
  | .other _ _ => none

/-- Spec, QueryOnly rendering: join the fragments with `&` and prefix the
result with `?` only when at least one fragment exists. -/
def specRenderQuery (fragments : List String) : String :=
  if fragments = [] then "" else "?" ++ String.intercalate "&" fragments

/-- Spec, PathAndQuery rendering: whether a `:`-prefixed required key has
no supplied value, or an empty one (looking the key up with or without the
`:` prefix). -/
def pathParamMissing (ps : List MethodParam) (r : String) : Bool :=
  match ps.find? (fun p => p.Key == goDrop r 1 || p.Key == r) with
  | none => true
  | some p => p.Value.eqEmptyString

/-- Spec, PathAndQuery rendering: substitute one placeholder into the
accumulated URI. -/
def substStep (ps : List MethodParam) (acc : String) (r : String) : String :=
  match ps.find? (fun p => p.Key == goDrop r 1 || p.Key == r) with
  | some p => goReplaceAll acc r p.Value.render
  | none => acc

/-- Spec, PathAndQuery rendering: the first `:`-prefixed required key whose
supplied value is missing or empty, if any. -/
def specMissingPathParam (e : Method) : Option String :=
  (e.RequiredParams.filter (fun r => goStartsWith r ":")).find?
    (pathParamMissing e.Params)

/-- Spec, PathAndQuery rendering: the URI template with every `:`-prefixed
required placeholder replaced by the rendering of its supplied value. -/
def specSubstitutedURI (e : Method) : String :=
  (e.RequiredParams.filter (fun r => goStartsWith r ":")).foldl
    (substStep e.Params) e.URI

/-- The single query-string value `GetQueryParams` stores for a parameter
of a supported type: strings as-is, lists comma-joined, integers in
decimal. -/
def queryJoinedValue : ParamValue → String
  | .str s => s
  | .strList xs => String.intercalate "," xs
  | .intList xs => String.intercalate "," (xs.map toString)
  | .int n => toString n
  | .other _ _ => ""

/-- The descriptor `GetContractByChainIdAndAddress` (methods_contract.go)
dispatches: `MethodGetContractByChainIdAndAddress` with `SetParams`
applied.  `addressHex` models `address.Hex()`; `fields` and `omitted`
model the comma-joined `fields`/`omit` arguments. -/
def contractByChainIdAndAddressMethod (chainId : Int)
    (addressHex fields omitted : String) : Method :=
  { methodGetContractByChainIdAndAddress with
    Params := [⟨":chain", .int chainId⟩, ⟨":address", .str addressHex⟩,
      ⟨"fields", .str fields⟩, ⟨"omit", .str omitted⟩] }

/-- A structured error body `{errorId, customCode: "X", message: "boom"}`,
used as a concrete non-200 response body. -/
def structuredErrBody : Json :=
  .obj [("errorId", .str "123e4567-e89b-12d3-a456-426614174000"),
    ("customCode", .str "X"), ("message", .str "boom")]

/-! ## Theorems -/

/-- `paramsHaveKey` finds exactly the keys present in the parameter
list. -/
theorem paramsHaveKey_iff (ps : List MethodParam) (k : String) :
    paramsHaveKey ps k = true ↔ ∃ p ∈ ps, p.Key = k := by
  simp [paramsHaveKey, List.any_eq_true, beq_iff_eq]

/-- `verifyLoop` succeeds exactly when every required key is present. -/
theorem verifyLoop_eq_none_iff (ps : List MethodParam) (rs : List String) :
    verifyLoop ps rs = none ↔ ∀ r ∈ rs, paramsHaveKey ps r = true := by
  induction rs with
  | nil => simp [verifyLoop]
  | cons r rs ih =>
    by_cases h : paramsHaveKey ps r = true
    · simp [verifyLoop, h, ih]
    · simp [verifyLoop, h]

/-- `verifyLoop` names the first missing required key. -/
theorem verifyLoop_first_missing (ps : List MethodParam) (rs : List String)
    (r : String) (h : rs.find? (fun r => !paramsHaveKey ps r) = some r) :
    verifyLoop ps rs = some ("missing required parameter: " ++ r) := by
  induction rs with
  | nil => simp at h
  | cons r₀ rs ih =>
    by_cases h₀ : paramsHaveKey ps r₀ = true
    · rw [List.find?_cons_of_neg] at h
      · simpa [verifyLoop, h₀] using ih h
      · simp [h₀]
    · rw [List.find?_cons_of_pos] at h
      · cases h
        simp [verifyLoop, h₀]
      · simp [h₀]

/-- **C5.**  `Method.Verify` fails iff some key in `RequiredParams` has no
entry with an equal key in `Params` — the values, including empty strings,
are never consulted — and the reported error names the first missing key in
`RequiredParams` declaration order. -/
theorem verify_fails_iff_required_key_absent (e : Method) :
    (e.verify = none ↔ ∀ r ∈ e.RequiredParams, ∃ p ∈ e.Params, p.Key = r) ∧
    (∀ r, e.RequiredParams.find? (fun r => !paramsHaveKey e.Params r) = some r →
      e.verify = some ("missing required parameter: " ++ r)) := by
  constructor
  · rw [Method.verify, verifyLoop_eq_none_iff]
    exact forall₂_congr (fun r _ => paramsHaveKey_iff e.Params r)
  · exact fun r h => verifyLoop_first_missing e.Params e.RequiredParams r h

/-- Witness for C5: the unfilled `MethodGetContractByChainId` descriptor is
missing its required `:chain` parameter and `Verify` names it, while the
filled descriptor (whose `sort` and `afterMatchId` values are empty
strings) verifies. -/
theorem verify_fails_iff_required_key_absent_witness :
    methodGetContractByChainId.verify = some "missing required parameter: :chain" ∧
    (contractsByChainIdMethod 1 "" "" 10).verify = none := by
  constructor
  · exact (verify_fails_iff_required_key_absent methodGetContractByChainId).2
      ":chain" (by decide)
  · exact (verify_fails_iff_required_key_absent (contractsByChainIdMethod 1 "" "" 10)).1.mpr
      (by decide)

/-- Tokens never exceed capacity along any enabled run. -/
theorem rlRun_le_max (max : Nat) :
    ∀ (evs : List RLEvent) (t s : Nat), t ≤ max → rlRun max t evs = some s → s ≤ max := by
  intro evs
  induction evs with
  | nil =>
    intro t s ht h
    simp only [rlRun, Option.some.injEq] at h
    omega
  | cons ev evs ih =>
    intro t s ht h
    cases ev with
    | replenish =>
      by_cases hlt : t < max
      · simp only [rlRun, rlStep, if_pos hlt] at h
        exact ih (t + 1) s (by omega) h
      · simp [rlRun, rlStep, if_neg hlt] at h
    | wait =>
      by_cases hpos : 0 < t
      · simp only [rlRun, rlStep, if_pos hpos] at h
        exact ih (t - 1) s (by omega) h
      · simp [rlRun, rlStep, if_neg hpos] at h

/-- `k` consecutive `Wait` calls are all enabled from any state holding at
least `k` tokens, and consume exactly one token each. -/
theorem rlRun_replicate_wait (max : Nat) :
    ∀ (k t : Nat), k ≤ t → rlRun max t (List.replicate k .wait) = some (t - k) := by
  intro k
  induction k with
  | zero => intro t _; simp [rlRun]
  | succ k ih =>
    intro t hk
    have hpos : 0 < t := by omega
    rw [List.replicate_succ]
    simp only [rlRun, rlStep, if_pos hpos]
    rw [ih (t - 1) (by omega)]
    congr 1
    omega

/-- **C9.**  The token bucket of `NewRateLimiter(max, duration)` starts
filled with exactly `max` tokens; along every enabled sequence of
replenishments (one per period, blocked while full) and `Wait` calls
(removing one token, blocked while empty) the token count never exceeds
`max`; and the first `max` `Wait` calls after construction are all enabled
with no replenishment tick interleaved. -/
theorem rateLimiter_bucket_invariant (max : Nat) :
    rlInit max = max ∧
    (∀ (evs : List RLEvent) (s : Nat), rlRun max (rlInit max) evs = some s → s ≤ max) ∧
    (∀ k, k ≤ max → rlRun max (rlInit max) (List.replicate k .wait) = some (max - k)) := by
  refine ⟨rfl, ?_, ?_⟩
  · exact fun evs s h => rlRun_le_max max evs (rlInit max) s (le_refl max) h
  · exact fun k hk => rlRun_replicate_wait max k max hk

/-- Witness for C9: with capacity 5, five immediate `Wait` calls drain the
freshly constructed bucket without blocking, and a run that also
interleaves replenishments stays within capacity. -/
theorem rateLimiter_bucket_invariant_witness :
    rlRun 5 (rlInit 5) (List.replicate 5 .wait) = some 0 ∧
    ∀ s, rlRun 5 (rlInit 5) [.wait, .replenish, .wait] = some s → s ≤ 5 := by
  constructor
  · exact (rateLimiter_bucket_invariant 5).2.2 5 (by decide)
  · exact fun s h => (rateLimiter_bucket_invariant 5).2.1 [.wait, .replenish, .wait] s h

/-- **C1.**  The descriptor `GetContractByChainIdAndAddress` actually
dispatches has the declared kind `MethodParamTypeUriAndQueryString`,
verifies, and renders under the rendering contract — yet `CallMethod`
rejects it with the `invalid MethodParamType` error and performs no
transport attempt, for every client and transport.  The claim that only
kinds outside the three declared ones are rejected therefore fails on the
code: the `else` branch of `CallMethod` also catches the declared third
kind. -/
theorem callMethod_rejects_declared_uriAndQuery_kind (c : Client)
    (transport : Transport) :
    (contractByChainIdAndAddressMethod 1
        "0xdAC17F958D2ee523a2206206994597C13D831ec7" "all" "").ParamType =
      methodParamTypeUriAndQueryString ∧
    (contractByChainIdAndAddressMethod 1
        "0xdAC17F958D2ee523a2206206994597C13D831ec7" "all" "").verify = none ∧
    (contractByChainIdAndAddressMethod 1
        "0xdAC17F958D2ee523a2206206994597C13D831ec7" "all" "").parseUri =
      .ok "/v2/contract/1/0xdAC17F958D2ee523a2206206994597C13D831ec7?fields=all" ∧
    (c.callMethod (contractByChainIdAndAddressMethod 1
        "0xdAC17F958D2ee523a2206206994597C13D831ec7" "all" "") transport).error =
      some "invalid MethodParamType: MethodParamTypeUriAndQueryString" ∧
    (c.callMethod (contractByChainIdAndAddressMethod 1
        "0xdAC17F958D2ee523a2206206994597C13D831ec7" "all" "") transport).attempts = 0 := by
  refine ⟨rfl, by decide, by rfl, rfl, rfl⟩

/-- Whenever the retry loop reports no error, the status it returns is
200: every non-200 exit couples the status with a non-nil error. -/
theorem retryLoop_error_none_status (transport : Transport) (delay : Nat) :
    ∀ (fuel attempt slept : Nat),
      (retryLoop transport delay attempt fuel slept).error = none →
      (retryLoop transport delay attempt fuel slept).status = 200 := by
  intro fuel
  induction fuel with
  | zero =>
    intro attempt slept h
    rw [retryLoop] at h ⊢
    cases htr : transport attempt with
    | failure => rw [htr] at h; simp at h
    | response s txt b =>
      rw [htr] at h
      dsimp only at h ⊢
      by_cases hs : s == 200
      · rw [if_pos hs]
        show s = 200
        simpa using hs
      · rw [if_neg hs] at h
        simp at h
  | succ r ih =>
    intro attempt slept h
    rw [retryLoop] at h ⊢
    cases htr : transport attempt with
    | failure =>
      rw [htr] at h
      dsimp only at h ⊢
      exact ih (attempt + 1) (slept + delay) h
    | response s txt b =>
      rw [htr] at h
      dsimp only at h ⊢
      by_cases hs : s == 200
      · rw [if_pos hs]
        show s = 200
        simpa using hs
      · rw [if_neg hs] at h ⊢
        exact ih (attempt + 1) (slept + delay) h

/-- `CallMethod` reports no error only alongside status 200. -/
theorem callMethod_error_none_status (c : Client) (m : Method)
    (transport : Transport)
    (h : (c.callMethod m transport).error = none) :
    (c.callMethod m transport).status = 200 := by
  unfold Client.callMethod at h ⊢
  by_cases h0 : m.ParamType == methodParamTypeUri
  · rw [if_pos h0] at h ⊢
    unfold Client.callURIMethod at h ⊢
    cases hpu : m.parseUri with
    | error e => rw [hpu] at h; simp at h
    | ok uri =>
      rw [hpu] at h
      dsimp only at h ⊢
      exact retryLoop_error_none_status transport _ _ _ _ h
  · rw [if_neg h0] at h ⊢
    by_cases h1 : m.ParamType == methodParamTypeQueryString
    · rw [if_pos h1] at h ⊢
      unfold Client.callQueryMethod at h ⊢
      exact retryLoop_error_none_status transport _ _ _ _ h
    · rw [if_neg h1] at h
      simp at h

/-- **C2.**  A non-200 response can never surface the structured
`ErrorResponse`: `CallMethod` returns a non-nil error (and a nil body)
together with every non-200 status, and the operations return that error
before reaching their `ToErrorResponse` branch, so the branch is dead
code.  Concretely, `GetContractsByChainId` answered 500 with a perfectly
decodable `{errorId, customCode: "X", message: "boom"}` body returns the
generic dispatcher error — here the `invalid MethodParamType` error, since
its descriptor kind is also rejected — even though `ToErrorResponse` on
that body would produce the structured message the claim requires. -/
theorem structured_error_branch_unreachable :
    (∀ (c : Client) (m : Method) (transport : Transport),
        (c.callMethod m transport).error = none →
          (c.callMethod m transport).status = 200) ∧
    getContractsByChainId newClient
        (fun _ => .response 500 "500 Internal Server Error" structuredErrBody)
        1 "" "" 10 =
      (none, some "invalid MethodParamType: MethodParamTypeUriAndQueryString") ∧
    toErrorResponse (some structuredErrBody) =
      some "sourcify returned error (X): boom" :=
  ⟨callMethod_error_none_status, by rfl, by rfl⟩

/-- Witness for C2: at a concrete successful dispatch the hypothesis of
the first conjunct holds and yields status 200. -/
theorem structured_error_branch_unreachable_witness :
    (newClient.callMethod methodSourceFilesFullMatch
        (fun _ => .response 200 "200 OK" Json.null)).status = 200 :=
  structured_error_branch_unreachable.1 newClient methodSourceFilesFullMatch
    (fun _ => .response 200 "200 OK" Json.null) (by rfl)

/-- When every attempt in the window fails, the retry loop runs through
the whole window, sleeping once between consecutive attempts, and its
final outcome reports the last attempt's failure — including the last
status code. -/
theorem retryLoop_all_fail (transport : Transport) (delay : Nat) :
    ∀ (fuel attempt slept : Nat),
      (∀ k, attempt ≤ k → k ≤ attempt + fuel → attemptFails (transport k) = true) →
      (retryLoop transport delay attempt fuel slept).attempts = attempt + fuel ∧
      (retryLoop transport delay attempt fuel slept).totalSleep =
        slept + fuel * delay ∧
      (transport (attempt + fuel) = .failure →
        (retryLoop transport delay attempt fuel slept).error =
          some "failed to send HTTP request: transport error" ∧
        (retryLoop transport delay attempt fuel slept).status = 0) ∧
      (∀ s txt b, transport (attempt + fuel) = .response s txt b →
        (retryLoop transport delay attempt fuel slept).error =
          some ("unexpected response status: " ++ txt) ∧
        (retryLoop transport delay attempt fuel slept).status = s) := by
  intro fuel
  induction fuel with
  | zero =>
    intro attempt slept hfail
    rw [retryLoop]
    cases htr : transport attempt with
    | failure =>
      refine ⟨rfl, by simp, fun _ => ⟨rfl, rfl⟩, ?_⟩
      intro s txt b hresp
      rw [Nat.add_zero] at hresp
      rw [htr] at hresp
      cases hresp
    | response s txt b =>
      have hs : (s == 200) = false := by
        have := hfail attempt (le_refl _) (by omega)
        rw [htr] at this
        simpa [attemptFails] using this
      dsimp only
      rw [hs]
      refine ⟨rfl, by simp, ?_, ?_⟩
      · intro hresp
        rw [Nat.add_zero, htr] at hresp
        cases hresp
      · intro s' txt' b' hresp
        rw [Nat.add_zero, htr] at hresp
        cases hresp
        exact ⟨rfl, rfl⟩
  | succ r ih =>
    intro attempt slept hfail
    have hwindow : ∀ k, attempt + 1 ≤ k → k ≤ attempt + 1 + r →
        attemptFails (transport k) = true := by
      intro k h1 h2
      exact hfail k (by omega) (by omega)
    have hidx : attempt + (r + 1) = attempt + 1 + r := by omega
    have hrec := ih (attempt + 1) (slept + delay) hwindow
    rw [retryLoop]
    cases htr : transport attempt with
    | failure =>
      dsimp only
      refine ⟨?_, ?_, ?_, ?_⟩
      · rw [hrec.1]; omega
      · rw [hrec.2.1, Nat.succ_mul]; omega
      · intro hresp
        rw [hidx] at hresp
        exact hrec.2.2.1 hresp
      · intro s txt b hresp
        rw [hidx] at hresp
        exact hrec.2.2.2 s txt b hresp
    | response s txt b =>
      have hs : (s == 200) = false := by
        have := hfail attempt (le_refl _) (by omega)
        rw [htr] at this
        simpa [attemptFails] using this
      dsimp only
      rw [hs, if_neg (by decide)]
      refine ⟨?_, ?_, ?_, ?_⟩
      · rw [hrec.1]; omega
      · rw [hrec.2.1, Nat.succ_mul]; omega
      · intro hresp
        rw [hidx] at hresp
        exact hrec.2.2.1 hresp
      · intro s' txt' b' hresp
        rw [hidx] at hresp
        exact hrec.2.2.2 s' txt' b' hresp

/-- A 200 response at attempt `k`, after failures before it, stops the
loop at exactly `k` attempts with the body, with `k - attempt` sleeps
behind it. -/
theorem retryLoop_first_success (transport : Transport) (delay : Nat) :
    ∀ (fuel attempt slept k : Nat) (txt : String) (b : Json),
      attempt ≤ k → k ≤ attempt + fuel →
      (∀ j, attempt ≤ j → j < k → attemptFails (transport j) = true) →
      transport k = .response 200 txt b →
      retryLoop transport delay attempt fuel slept =
        { body := some b, status := 200, error := none, rawQuery := "",
          attempts := k, totalSleep := slept + (k - attempt) * delay } := by
  intro fuel
  induction fuel with
  | zero =>
    intro attempt slept k txt b hk1 hk2 hbefore hresp
    have hk : k = attempt := by omega
    subst hk
    rw [retryLoop, hresp]
    dsimp only
    rw [if_pos (by simp)]
    have : k - k = 0 := by omega
    rw [this]
    simp
  | succ r ih =>
    intro attempt slept k txt b hk1 hk2 hbefore hresp
    by_cases heq : k = attempt
    · subst heq
      rw [retryLoop, hresp]
      dsimp only
      rw [if_pos (by simp)]
      have : k - k = 0 := by omega
      rw [this]
      simp
    · have hlt : attempt < k := by omega
      have hfirst := hbefore attempt (le_refl _) hlt
      have hrec := ih (attempt + 1) (slept + delay) k txt b (by omega) (by omega)
        (fun j h1 h2 => hbefore j (by omega) h2) hresp
      have harith : slept + delay + (k - (attempt + 1)) * delay =
          slept + (k - attempt) * delay := by
        have h1 : k - attempt = (k - (attempt + 1)) + 1 := by omega
        rw [h1, Nat.succ_mul]
        omega
      rw [retryLoop]
      cases htr : transport attempt with
      | failure =>
        dsimp only
        rw [hrec, harith]
      | response s txt' b' =>
        have hs : (s == 200) = false := by
          rw [htr] at hfirst
          simpa [attemptFails] using hfirst
        dsimp only
        rw [hs, if_neg (by decide)]
        rw [hrec, harith]

/-- **C3.**  For a retry policy with `maxRetries = m ≥ 0`:
`doRequestWithRetry` makes exactly `m + 1` transport attempts when every
attempt fails (by transport error or by non-200 status), sleeping the
configured delay `m` times for a total of `m * delay`; when the attempts
are exhausted by a non-200 response, the last status code is returned
alongside the error; and a 200 response at any attempt `k ≤ m + 1` stops
the loop immediately with the body, status 200 and no error after exactly
`k` attempts. -/
theorem doRequestWithRetry_attempt_count (maxRetries delay : Nat)
    (transport : Transport) :
    ((∀ k, 1 ≤ k → k ≤ maxRetries + 1 → attemptFails (transport k) = true) →
      (({ BaseURL := "https://sourcify.dev/server",
          RetryOptions := ⟨(maxRetries : Int), delay⟩ } :
            Client).doRequestWithRetry transport).attempts = maxRetries + 1 ∧
      (({ BaseURL := "https://sourcify.dev/server",
          RetryOptions := ⟨(maxRetries : Int), delay⟩ } :
            Client).doRequestWithRetry transport).totalSleep = maxRetries * delay ∧
      (∀ s txt b, transport (maxRetries + 1) = .response s txt b →
        (({ BaseURL := "https://sourcify.dev/server",
            RetryOptions := ⟨(maxRetries : Int), delay⟩ } :
              Client).doRequestWithRetry transport).status = s ∧
        (({ BaseURL := "https://sourcify.dev/server",
            RetryOptions := ⟨(maxRetries : Int), delay⟩ } :
              Client).doRequestWithRetry transport).error =
          some ("unexpected response status: " ++ txt))) ∧
    (∀ k txt b, 1 ≤ k → k ≤ maxRetries + 1 →
      (∀ j, 1 ≤ j → j < k → attemptFails (transport j) = true) →
      transport k = .response 200 txt b →
      ({ BaseURL := "https://sourcify.dev/server",
         RetryOptions := ⟨(maxRetries : Int), delay⟩ } :
           Client).doRequestWithRetry transport =
        { body := some b, status := 200, error := none, rawQuery := "",
          attempts := k, totalSleep := (k - 1) * delay }) := by
  have htn : ((maxRetries : Int)).toNat = maxRetries := Int.toNat_natCast maxRetries
  constructor
  · intro hfail
    unfold Client.doRequestWithRetry
    dsimp only
    rw [htn]
    have h := retryLoop_all_fail transport delay maxRetries 1 0
      (fun k h1 h2 => hfail k h1 (by omega))
    have hidx : 1 + maxRetries = maxRetries + 1 := by omega
    rw [hidx] at h
    refine ⟨h.1, by rw [h.2.1]; omega, ?_⟩
    intro s txt b hresp
    exact ⟨(h.2.2.2 s txt b hresp).2, (h.2.2.2 s txt b hresp).1⟩
  · intro k txt b h1 h2 hbefore hresp
    unfold Client.doRequestWithRetry
    dsimp only
    rw [htn]
    have h := retryLoop_first_success transport delay maxRetries 1 0 k txt b
      h1 (by omega) (fun j hj1 hj2 => hbefore j hj1 hj2) hresp
    rw [h]
    simp

/-- Witness for C3: with `maxRetries = 2` and `delay = 7`, a transport
answering 500 on every attempt yields 3 attempts, 14 total sleep, status
500 and the status error; a transport failing twice and then answering
200 succeeds on the third attempt. -/
theorem doRequestWithRetry_attempt_count_witness :
    (({ BaseURL := "https://sourcify.dev/server",
        RetryOptions := ⟨(2 : Int), 7⟩ } : Client).doRequestWithRetry
          (fun _ => .response 500 "500 Internal Server Error" .null)).attempts = 3 ∧
    (({ BaseURL := "https://sourcify.dev/server",
        RetryOptions := ⟨(2 : Int), 7⟩ } : Client).doRequestWithRetry
          (fun _ => .response 500 "500 Internal Server Error" .null)).totalSleep = 14 ∧
    (({ BaseURL := "https://sourcify.dev/server",
        RetryOptions := ⟨(2 : Int), 7⟩ } : Client).doRequestWithRetry
          (fun _ => .response 500 "500 Internal Server Error" .null)).status = 500 ∧
    ({ BaseURL := "https://sourcify.dev/server",
       RetryOptions := ⟨(2 : Int), 7⟩ } : Client).doRequestWithRetry
          (fun k => if k ≤ 2 then .failure else .response 200 "200 OK" (.str "hi")) =
      { body := some (.str "hi"), status := 200, error := none, rawQuery := "",
        attempts := 3, totalSleep := 14 } := by
  have h1 := (doRequestWithRetry_attempt_count 2 7
    (fun _ => .response 500 "500 Internal Server Error" .null)).1
    (fun k _ _ => rfl)
  have h2 := (doRequestWithRetry_attempt_count 2 7
    (fun k => if k ≤ 2 then .failure else .response 200 "200 OK" (.str "hi"))).2
    3 "200 OK" (.str "hi") (by omega) (by omega)
    (by
      intro j hj1 hj2
      have hj : j ≤ 2 := by omega
      show attemptFails (if j ≤ 2 then .failure else .response 200 "200 OK" (.str "hi")) = true
      rw [if_pos hj]
      rfl)
    (by
      show (if 3 ≤ 2 then TransportResult.failure
        else .response 200 "200 OK" (.str "hi")) = .response 200 "200 OK" (.str "hi")
      rw [if_neg (by omega)])
  exact ⟨h1.1, h1.2.1, (h1.2.2 500 "500 Internal Server Error" .null rfl).1, h2⟩

/-- A type error on a `string` struct field never renders as the
top-level-array message the tolerant decode matches on. -/
theorem decodeStringField_err_not_arrayValue (f cur : String) (j : Json)
    (e : String)
    (hf : f = "SourceCodes.status" ∨ f = "SourceCodes.files.name" ∨
      f = "SourceCodes.files.path" ∨ f = "SourceCodes.files.content")
    (h : decodeStringField f cur j = .error e) :
    goContains e "cannot unmarshal array into Go value" = false := by
  cases j with
  | str s => simp [decodeStringField] at h
  | null => simp [decodeStringField] at h
  | bool b =>
    simp [decodeStringField] at h
    subst h
    simp only [Json.kindName]
    rcases hf with rfl | rfl | rfl | rfl <;> decide
  | num n =>
    simp [decodeStringField] at h
    subst h
    simp only [Json.kindName]
    rcases hf with rfl | rfl | rfl | rfl <;> decide
  | arr xs =>
    simp [decodeStringField] at h
    subst h
    simp only [Json.kindName]
    rcases hf with rfl | rfl | rfl | rfl <;> decide
  | obj fs =>
    simp [decodeStringField] at h
    subst h
    simp only [Json.kindName]
    rcases hf with rfl | rfl | rfl | rfl <;> decide

/-- Errors of the `SourceCode` field loop under the envelope's `files`
field never render as the top-level-array message. -/
theorem decodeSourceCodeFields_err_not_arrayValue :
    ∀ (fields : List (String × Json)) (acc : SourceCode) (e : String),
      decodeSourceCodeFields "SourceCodes.files." acc fields = .error e →
      goContains e "cannot unmarshal array into Go value" = false := by
  intro fields
  induction fields with
  | nil => intro acc e h; simp [decodeSourceCodeFields] at h
  | cons kv rest ih =>
    intro acc e h
    obtain ⟨k, v⟩ := kv
    unfold decodeSourceCodeFields at h
    by_cases h1 : goToLower k == "name"
    · rw [if_pos h1] at h
      cases hd : decodeStringField ("SourceCodes.files." ++ "name") acc.Name v with
      | ok s2 => rw [hd] at h; exact ih _ _ h
      | error e2 =>
        rw [hd] at h
        injection h with h
        subst h
        exact decodeStringField_err_not_arrayValue _ _ _ _
          (Or.inr (Or.inl (by decide))) hd
    · rw [if_neg h1] at h
      by_cases h2 : goToLower k == "path"
      · rw [if_pos h2] at h
        cases hd : decodeStringField ("SourceCodes.files." ++ "path") acc.Path v with
        | ok s2 => rw [hd] at h; exact ih _ _ h
        | error e2 =>
          rw [hd] at h
          injection h with h
          subst h
          exact decodeStringField_err_not_arrayValue _ _ _ _
            (Or.inr (Or.inr (Or.inl (by decide)))) hd
      · rw [if_neg h2] at h
        by_cases h3 : goToLower k == "content"
        · rw [if_pos h3] at h
          cases hd : decodeStringField ("SourceCodes.files." ++ "content")
              acc.Content v with
          | ok s2 => rw [hd] at h; exact ih _ _ h
          | error e2 =>
            rw [hd] at h
            injection h with h
            subst h
            exact decodeStringField_err_not_arrayValue _ _ _ _
              (Or.inr (Or.inr (Or.inr (by decide)))) hd
        · rw [if_neg h3] at h
          exact ih _ _ h

/-- Errors of a `files` element decode never render as the
top-level-array message. -/
theorem decodeSourceCodeElem_files_err_not_arrayValue (j : Json) (e : String)
    (h : decodeSourceCodeElem "SourceCodes.files."
      (fun kind => fieldTypeErr kind "SourceCodes.files" "sourcify.SourceCode") j =
        .error e) :
    goContains e "cannot unmarshal array into Go value" = false := by
  cases j with
  | null => simp [decodeSourceCodeElem] at h
  | obj fs =>
    simp only [decodeSourceCodeElem] at h
    exact decodeSourceCodeFields_err_not_arrayValue fs _ e h
  | bool b => simp [decodeSourceCodeElem] at h; subst h; simp only [Json.kindName]; decide
  | num n => simp [decodeSourceCodeElem] at h; subst h; simp only [Json.kindName]; decide
  | str s => simp [decodeSourceCodeElem] at h; subst h; simp only [Json.kindName]; decide
  | arr xs => simp [decodeSourceCodeElem] at h; subst h; simp only [Json.kindName]; decide

/-- A failing `mapMExcept` fails on some element. -/
theorem mapMExcept_error_mem {α β ε : Type} (f : α → Except ε β) :
    ∀ (xs : List α) (e : ε), mapMExcept f xs = .error e →
      ∃ x ∈ xs, f x = .error e := by
  intro xs
  induction xs with
  | nil => intro e h; simp [mapMExcept] at h
  | cons x rest ih =>
    intro e h
    unfold mapMExcept at h
    cases hx : f x with
    | error e2 =>
      rw [hx] at h
      injection h with h
      subst h
      exact ⟨x, List.mem_cons_self x rest, hx⟩
    | ok y =>
      rw [hx] at h
      cases hr : mapMExcept f rest with
      | error e2 =>
        rw [hr] at h
        injection h with h
        subst h
        obtain ⟨x', hx', he'⟩ := ih _ hr
        exact ⟨x', List.mem_cons_of_mem x hx', he'⟩
      | ok ys => rw [hr] at h; simp [Except.map] at h

/-- A `mapMExcept` over elements that all decode succeeds and preserves
the length. -/
theorem mapMExcept_ok_length {α β ε : Type} (f : α → Except ε β) :
    ∀ (xs : List α), (∀ x ∈ xs, (f x).isOk = true) →
      ∃ ys, mapMExcept f xs = .ok ys ∧ ys.length = xs.length := by
  intro xs
  induction xs with
  | nil => intro _; exact ⟨[], rfl, rfl⟩
  | cons x rest ih =>
    intro hall
    obtain ⟨ys, hys, hlen⟩ := ih (fun x' hx' => hall x' (List.mem_cons_of_mem x hx'))
    cases hx : f x with
    | error e =>
      have := hall x (List.mem_cons_self x rest)
      rw [hx] at this
      simp [Except.isOk, Except.toBool] at this
    | ok y =>
      refine ⟨y :: ys, ?_, by simp [hlen]⟩
      unfold mapMExcept
      rw [hx, hys]
      rfl

/-- Errors of the `files` field decode never render as the
top-level-array message. -/
theorem decodeFilesField_err_not_arrayValue (v : Json) (e : String)
    (h : decodeFilesField v = .error e) :
    goContains e "cannot unmarshal array into Go value" = false := by
  cases v with
  | null => simp [decodeFilesField] at h
  | arr items =>
    simp only [decodeFilesField] at h
    obtain ⟨x, _, hx⟩ := mapMExcept_error_mem _ items e h
    exact decodeSourceCodeElem_files_err_not_arrayValue x e hx
  | bool b => simp [decodeFilesField] at h; subst h; simp only [Json.kindName]; decide
  | num n => simp [decodeFilesField] at h; subst h; simp only [Json.kindName]; decide
  | str s => simp [decodeFilesField] at h; subst h; simp only [Json.kindName]; decide
  | obj fs => simp [decodeFilesField] at h; subst h; simp only [Json.kindName]; decide

/-- Errors of the envelope field loop never render as the
top-level-array message. -/
theorem decodeSourceCodesFields_err_not_arrayValue :
    ∀ (fields : List (String × Json)) (acc : SourceCodes) (e : String),
      decodeSourceCodesFields acc fields = .error e →
      goContains e "cannot unmarshal array into Go value" = false := by
  intro fields
  induction fields with
  | nil => intro acc e h; simp [decodeSourceCodesFields] at h
  | cons kv rest ih =>
    intro acc e h
    obtain ⟨k, v⟩ := kv
    unfold decodeSourceCodesFields at h
    by_cases h1 : goToLower k == "status"
    · rw [if_pos h1] at h
      cases hd : decodeStringField "SourceCodes.status" acc.Status v with
      | ok s2 => rw [hd] at h; exact ih _ _ h
      | error e2 =>
        rw [hd] at h
        injection h with h
        subst h
        exact decodeStringField_err_not_arrayValue _ _ _ _ (Or.inl rfl) hd
    · rw [if_neg h1] at h
      by_cases h2 : goToLower k == "files"
      · rw [if_pos h2] at h
        cases hd : decodeFilesField v with
        | ok l => rw [hd] at h; exact ih _ _ h
        | error e2 =>
          rw [hd] at h
          injection h with h
          subst h
          exact decodeFilesField_err_not_arrayValue v _ hd
      · rw [if_neg h2] at h
        exact ih _ _ h

/-- On a non-array body, an envelope decode error never renders as the
top-level-array message; the fallback is therefore not triggered. -/
theorem decodeSourceCodesPtr_err_not_arrayValue (body : Json) (e : String)
    (harr : body.isArr = false)
    (h : decodeSourceCodesPtr body = .error e) :
    goContains e "cannot unmarshal array into Go value" = false := by
  cases body with
  | null => simp [decodeSourceCodesPtr] at h
  | arr items => simp [Json.isArr] at harr
  | obj fields =>
    simp only [decodeSourceCodesPtr] at h
    cases hd : decodeSourceCodesFields ⟨"", []⟩ fields with
    | ok v => rw [hd] at h; simp [Except.map] at h
    | error e2 =>
      rw [hd] at h
      simp only [Except.map] at h
      injection h with h
      subst h
      exact decodeSourceCodesFields_err_not_arrayValue fields _ _ hd
  | bool b => simp [decodeSourceCodesPtr] at h; subst h; simp only [Json.kindName]; decide
  | num n => simp [decodeSourceCodesPtr] at h; subst h; simp only [Json.kindName]; decide
  | str s => simp [decodeSourceCodesPtr] at h; subst h; simp only [Json.kindName]; decide

/-- **C4.**  The tolerant decode of `GetContractSourceCode`: the fallback
list decode is used if and only if the top-level JSON value is an array —
on any non-array body the result is exactly the envelope decode, errors
included; a bare array re-decodes the same value as the file list under
the sentinel status `"unknown"` (an array of `n` decodable item objects
yields `n` items); and an envelope object decodes to its own status and
entries without the fallback. -/
theorem getContractSourceCode_tolerant_decode (body : Json) :
    (body.isArr = false → decodeSourceCodesTolerant body = decodeSourceCodesPtr body) ∧
    (∀ items, body = .arr items →
      decodeSourceCodesTolerant body =
        match decodeSourceCodeList body with
        | .ok code => .ok (some { Status := "unknown", Code := code })
        | .error e2 => .error e2) ∧
    (∀ items, body = .arr items →
      (∀ j ∈ items, (decodeSourceCodeElem ""
          (fun kind => topLevelTypeErr kind "sourcify.SourceCode") j).isOk = true) →
      ∃ code, decodeSourceCodesTolerant body =
          .ok (some { Status := "unknown", Code := code }) ∧
        code.length = items.length) ∧
    (∀ st items code,
      body = .obj [("status", .str st), ("files", .arr items)] →
      mapMExcept (decodeSourceCodeElem "SourceCodes.files."
        (fun kind => fieldTypeErr kind "SourceCodes.files" "sourcify.SourceCode"))
          items = .ok code →
      decodeSourceCodesTolerant body = .ok (some { Status := st, Code := code })) := by
  refine ⟨?_, ?_, ?_, ?_⟩
  · intro harr
    unfold decodeSourceCodesTolerant
    cases hd : decodeSourceCodesPtr body with
    | ok v => rfl
    | error e =>
      dsimp only
      rw [decodeSourceCodesPtr_err_not_arrayValue body e harr hd]
      rw [if_neg (by decide)]
  · intro items hbody
    subst hbody
    unfold decodeSourceCodesTolerant
    have hd : decodeSourceCodesPtr (.arr items) =
        .error (topLevelTypeErr "array" "sourcify.SourceCodes") := by rfl
    rw [hd]
    dsimp only
    rw [if_pos (by decide)]
  · intro items hbody hall
    subst hbody
    obtain ⟨code, hcode, hlen⟩ := mapMExcept_ok_length _ items hall
    refine ⟨code, ?_, hlen⟩
    unfold decodeSourceCodesTolerant
    have hd : decodeSourceCodesPtr (.arr items) =
        .error (topLevelTypeErr "array" "sourcify.SourceCodes") := by rfl
    rw [hd]
    dsimp only
    rw [if_pos (by decide)]
    have hl : decodeSourceCodeList (.arr items) = .ok code := by
      simp only [decodeSourceCodeList]
      exact hcode
    rw [hl]
  · intro st items code hbody hmap
    subst hbody
    unfold decodeSourceCodesTolerant
    have hd : decodeSourceCodesPtr
        (.obj [("status", .str st), ("files", .arr items)]) =
        .ok (some { Status := st, Code := code }) := by
      simp only [decodeSourceCodesPtr, decodeSourceCodesFields,
        decodeStringField, decodeFilesField]
      rw [if_pos (by decide), if_neg (by decide), if_pos (by decide)]
      rw [hmap]
      rfl
    rw [hd]

/-- Witness for C4: a bare two-object array decodes under the sentinel
status with two items; a two-entry envelope decodes to its own status with
the entries unchanged; a top-level string propagates the envelope decode
error. -/
theorem getContractSourceCode_tolerant_decode_witness :
    decodeSourceCodesTolerant
        (.arr [.obj [("name", .str "a")], .obj [("path", .str "b")]]) =
      .ok (some { Status := "unknown", Code := [⟨"a", "", ""⟩, ⟨"", "b", ""⟩] }) ∧
    decodeSourceCodesTolerant
        (.obj [("status", .str "success"),
          ("files", .arr [.obj [("name", .str "a")], .obj [("name", .str "b")]])]) =
      .ok (some { Status := "success", Code := [⟨"a", "", ""⟩, ⟨"b", "", ""⟩] }) ∧
    decodeSourceCodesTolerant (.str "nope") =
      .error (topLevelTypeErr "string" "sourcify.SourceCodes") := by
  refine ⟨?_, ?_, ?_⟩
  · rw [(getContractSourceCode_tolerant_decode _).2.1 _ rfl]
    rfl
  · exact (getContractSourceCode_tolerant_decode _).2.2.2 "success" _ _ rfl (by rfl)
  · rw [(getContractSourceCode_tolerant_decode _).1 (by rfl)]
    rfl

/-- With no unsupported value in the list, the query loop produces
exactly the spec's fragments, in declaration order. -/
theorem queryLoop_eq_specFragments (ps : List MethodParam)
    (h : ∀ p ∈ ps, p.Value.isOther = false) :
    queryLoop ps = .ok (ps.filterMap specQueryFragment) := by
  induction ps with
  | nil => rfl
  | cons p rest ih =>
    have hrest := ih (fun q hq => h q (List.mem_cons_of_mem _ hq))
    have hp := h p (List.mem_cons_self p rest)
    unfold queryLoop
    cases hv : p.Value with
    | str s =>
      dsimp only
      by_cases hs : s = ""
      · subst hs
        rw [if_neg (by decide)]
        rw [hrest]
        simp [List.filterMap_cons, specQueryFragment, hv]
      · rw [if_pos (by simpa using hs)]
        rw [hrest]
        simp [Except.map, List.filterMap_cons, specQueryFragment, hv, hs]
    | strList xs =>
      dsimp only
      by_cases hx : xs = []
      · subst hx
        rw [if_neg (by simp)]
        rw [hrest]
        simp [List.filterMap_cons, specQueryFragment, hv]
      · rw [if_pos (List.length_pos.mpr hx)]
        rw [hrest]
        simp [Except.map, List.filterMap_cons, specQueryFragment, hv, hx]
    | intList xs =>
      dsimp only
      by_cases hx : xs = []
      · subst hx
        rw [if_neg (by simp)]
        rw [hrest]
        simp [List.filterMap_cons, specQueryFragment, hv]
      · rw [if_pos (List.length_pos.mpr hx)]
        rw [hrest]
        simp [Except.map, List.filterMap_cons, specQueryFragment, hv, hx]
    | int n =>
      dsimp only
      rw [hrest]
      simp [Except.map, List.filterMap_cons, specQueryFragment, hv]
    | other t r =>
      rw [hv] at hp
      simp [ParamValue.isOther] at hp

/-- The query loop aborts at the first parameter of an unsupported
runtime type, naming that type. -/
theorem queryLoop_first_other (ps : List MethodParam) (p : MethodParam)
    (h : ps.find? (fun q => q.Value.isOther) = some p) :
    queryLoop ps = .error (errInvalidParamType p.Value.typeName) := by
  induction ps with
  | nil => simp at h
  | cons q rest ih =>
    by_cases hq : q.Value.isOther = true
    · rw [List.find?_cons_of_pos _ (by exact hq)] at h
      injection h with h
      subst h
      unfold queryLoop
      cases hv : q.Value with
      | other t r => dsimp only; simp [hv, ParamValue.typeName]
      | str s => rw [hv] at hq; simp [ParamValue.isOther] at hq
      | int n => rw [hv] at hq; simp [ParamValue.isOther] at hq
      | strList xs => rw [hv] at hq; simp [ParamValue.isOther] at hq
      | intList xs => rw [hv] at hq; simp [ParamValue.isOther] at hq
    · rw [List.find?_cons_of_neg _ (by exact hq)] at h
      have hrest := ih h
      unfold queryLoop
      cases hv : q.Value with
      | str s =>
        dsimp only
        by_cases hs : (s != "") = true
        · rw [if_pos hs, hrest]; rfl
        · rw [if_neg hs, hrest]
      | strList xs =>
        dsimp only
        by_cases hx : xs.length > 0
        · rw [if_pos hx, hrest]; rfl
        · rw [if_neg hx, hrest]
      | intList xs =>
        dsimp only
        by_cases hx : xs.length > 0
        · rw [if_pos hx, hrest]; rfl
        · rw [if_neg hx, hrest]
      | int n => dsimp only; rw [hrest]; rfl
      | other t r => rw [hv] at hq; simp [ParamValue.isOther] at hq

/-- The source's query rendering (`""` or `"?" ++ joined`) agrees with the
spec's. -/
theorem renderQuery_eq_spec (fs : List String) :
    (if fs.length > 0 then "?" ++ String.intercalate "&" fs else "") =
      specRenderQuery fs := by
  cases fs with
  | nil => rfl
  | cons f rest => simp [specRenderQuery]

/-- **C6.**  For a QueryOnly descriptor, `ParseUri` emits one fragment per
parameter exactly as the spec describes — `key=value` for non-empty
strings, `key=<comma-joined>` for non-empty lists, `key=<value>` for every
integer including 0, nothing for empty strings and empty lists — in
declaration order, joined with `&` and prefixed with `?` only when a
fragment exists; a parameter of any other runtime type yields the
`UnsupportedParameterType` error naming that type (the first such
parameter wins). -/
theorem parseUri_queryOnly_spec (e : Method)
    (h : e.ParamType = methodParamTypeQueryString) :
    ((∀ p ∈ e.Params, p.Value.isOther = false) →
      e.parseUri = .ok (specRenderQuery (e.Params.filterMap specQueryFragment))) ∧
    (∀ p, e.Params.find? (fun q => q.Value.isOther) = some p →
      e.parseUri = .error (errInvalidParamType p.Value.typeName)) := by
  constructor
  · intro hno
    unfold Method.parseUri
    rw [h]
    rw [if_pos (by decide)]
    rw [queryLoop_eq_specFragments e.Params hno]
    simp only [Except.map]
    rw [renderQuery_eq_spec]
  · intro p hfind
    unfold Method.parseUri
    rw [h]
    rw [if_pos (by decide)]
    rw [queryLoop_first_other e.Params p hfind]
    rfl

/-- Witness for C6: the spec's example `{tags: ["a","b"], n: 3}` extended
with an empty string and a zero integer renders to `?tags=a,b&n=3&z=0`,
and a function-typed value is rejected by name. -/
theorem parseUri_queryOnly_spec_witness :
    ({ Name := "", HttpMethod := "GET", URI := "/check-by-addresses",
       MoreInfo := "", ParamType := methodParamTypeQueryString,
       RequiredParams := [],
       Params := [⟨"tags", .strList ["a", "b"]⟩, ⟨"n", .int 3⟩,
         ⟨"e", .str ""⟩, ⟨"z", .int 0⟩] } : Method).parseUri =
      .ok "?tags=a,b&n=3&z=0" ∧
    ({ Name := "", HttpMethod := "GET", URI := "/check-by-addresses",
       MoreInfo := "", ParamType := methodParamTypeQueryString,
       RequiredParams := [],
       Params := [⟨"f", .other "func()" "<fn>"⟩, ⟨"n", .int 3⟩] } : Method).parseUri =
      .error (errInvalidParamType "func()") := by
  constructor
  · rw [(parseUri_queryOnly_spec _ rfl).1 (by decide)]
    rfl
  · exact (parseUri_queryOnly_spec _ rfl).2 ⟨"f", .other "func()" "<fn>"⟩ (by decide)

/-- The path-substitution loop fails exactly on the first `:`-prefixed
required key with a missing or empty value, naming it without the
prefix. -/
theorem pathSubstLoop_error (ps : List MethodParam) :
    ∀ (rs : List String) (acc : String) (r : String),
      (rs.filter (fun x => goStartsWith x ":")).find? (pathParamMissing ps) = some r →
      pathSubstLoop ps acc rs =
        .error ("missing required path parameter: " ++ goDrop r 1) := by
  intro rs
  induction rs with
  | nil => intro acc r h; simp at h
  | cons r₀ rest ih =>
    intro acc r h
    by_cases hpfx : goStartsWith r₀ ":" = true
    · rw [List.filter_cons_of_pos (by exact hpfx)] at h
      unfold pathSubstLoop
      rw [if_pos hpfx]
      dsimp only
      by_cases hmiss : pathParamMissing ps r₀ = true
      · rw [List.find?_cons_of_pos _ (by exact hmiss)] at h
        injection h with h
        subst h
        unfold pathParamMissing at hmiss
        cases hf : ps.find? (fun p => p.Key == goDrop r₀ 1 || p.Key == r₀) with
        | none => rfl
        | some p =>
          rw [hf] at hmiss
          dsimp only at hmiss
          dsimp only
          rw [if_pos hmiss]
      · rw [List.find?_cons_of_neg _ (by exact hmiss)] at h
        unfold pathParamMissing at hmiss
        cases hf : ps.find? (fun p => p.Key == goDrop r₀ 1 || p.Key == r₀) with
        | none => rw [hf] at hmiss; simp at hmiss
        | some p =>
          rw [hf] at hmiss
          dsimp only at hmiss
          dsimp only
          rw [if_neg (by simpa using hmiss)]
          exact ih _ r h
    · rw [List.filter_cons_of_neg (by exact hpfx)] at h
      unfold pathSubstLoop
      rw [if_neg hpfx]
      exact ih acc r h

/-- With every `:`-prefixed required key supplied and non-empty, the
path-substitution loop folds the substitutions over the template in
declaration order. -/
theorem pathSubstLoop_ok (ps : List MethodParam) :
    ∀ (rs : List String) (acc : String),
      (rs.filter (fun x => goStartsWith x ":")).find? (pathParamMissing ps) = none →
      pathSubstLoop ps acc rs =
        .ok ((rs.filter (fun x => goStartsWith x ":")).foldl (substStep ps) acc) := by
  intro rs
  induction rs with
  | nil => intro acc _; rfl
  | cons r₀ rest ih =>
    intro acc h
    by_cases hpfx : goStartsWith r₀ ":" = true
    · rw [List.filter_cons_of_pos (by exact hpfx)] at h ⊢
      have hmiss : pathParamMissing ps r₀ = false := by
        cases hm : pathParamMissing ps r₀ with
        | false => rfl
        | true => rw [List.find?_cons_of_pos _ (by exact hm)] at h; cases h
      have hrest : (rest.filter (fun x => goStartsWith x ":")).find?
          (pathParamMissing ps) = none := by
        rw [List.find?_cons_of_neg _ (by simp [hmiss])] at h
        exact h
      unfold pathSubstLoop
      rw [if_pos hpfx]
      dsimp only
      unfold pathParamMissing at hmiss
      cases hf : ps.find? (fun p => p.Key == goDrop r₀ 1 || p.Key == r₀) with
      | none => rw [hf] at hmiss; simp at hmiss
      | some p =>
        rw [hf] at hmiss
        dsimp only at hmiss
        dsimp only
        rw [if_neg (by simp [hmiss])]
        rw [ih _ hrest]
        rw [List.foldl_cons]
        have hstep : substStep ps acc r₀ = goReplaceAll acc r₀ p.Value.render := by
          unfold substStep
          rw [hf]
        rw [hstep]
    · rw [List.filter_cons_of_neg (by exact hpfx)] at h ⊢
      unfold pathSubstLoop
      rw [if_neg hpfx]
      exact ih acc h

/-- **C8.**  For a PathAndQuery descriptor, `ParseUri` substitutes every
`:`-prefixed entry of `RequiredParams` into the URI template (matching the
supplied key with or without the prefix), failing with the
`MissingPathParameter` error naming the first such placeholder whose value
is missing or empty; it then appends one `key=value` fragment, in
declaration order, for every parameter whose key is not `:`-prefixed and
whose value is non-empty, prefixing with `?` only when at least one
fragment exists. -/
theorem parseUri_pathAndQuery_spec (e : Method)
    (h : e.ParamType = methodParamTypeUriAndQueryString) :
    (∀ r, specMissingPathParam e = some r →
      e.parseUri = .error ("missing required path parameter: " ++ goDrop r 1)) ∧
    (specMissingPathParam e = none →
      e.parseUri = .ok (
        if (pathQueryFragments e.Params).length > 0 then
          specSubstitutedURI e ++ "?" ++
            String.intercalate "&" (pathQueryFragments e.Params)
        else specSubstitutedURI e)) := by
  constructor
  · intro r hr
    unfold Method.parseUri
    rw [h]
    rw [if_neg (by decide), if_neg (by decide), if_pos (by decide)]
    rw [pathSubstLoop_error e.Params e.RequiredParams e.URI r hr]
    rfl
  · intro hnone
    unfold Method.parseUri
    rw [h]
    rw [if_neg (by decide), if_neg (by decide), if_pos (by decide)]
    rw [pathSubstLoop_ok e.Params e.RequiredParams e.URI hnone]
    rfl

/-- Witness for C8: the filled contract descriptor substitutes both
placeholders and appends the single non-empty query fragment; with an
empty `:address` value the first missing placeholder is reported without
its prefix. -/
theorem parseUri_pathAndQuery_spec_witness :
    (contractByChainIdAndAddressMethod 1 "0xAb" "all" "").parseUri =
      .ok "/v2/contract/1/0xAb?fields=all" ∧
    (contractByChainIdAndAddressMethod 1 "" "all" "").parseUri =
      .error "missing required path parameter: address" := by
  constructor
  · rw [(parseUri_pathAndQuery_spec _ rfl).2 (by rfl)]
    rfl
  · exact (parseUri_pathAndQuery_spec _ rfl).1 ":address" (by rfl)

/-- `Values.Add` under a fresh key appends a new singleton entry. -/
theorem valuesAdd_of_fresh (key val : String) :
    ∀ (v : Values), (∀ e ∈ v, e.1 ≠ key) →
      valuesAdd v key val = v ++ [(key, [val])] := by
  intro v
  induction v with
  | nil => intro _; rfl
  | cons e rest ih =>
    intro h
    obtain ⟨k, vs⟩ := e
    have hk : k ≠ key := h (k, vs) (List.mem_cons_self _ _)
    unfold valuesAdd
    rw [if_neg (by simpa using hk)]
    rw [ih (fun e he => h e (List.mem_cons_of_mem _ he))]
    rfl

/-- `Values.Set` under a fresh key appends a new singleton entry. -/
theorem valuesSet_of_fresh (key val : String) :
    ∀ (v : Values), (∀ e ∈ v, e.1 ≠ key) →
      valuesSet v key val = v ++ [(key, [val])] := by
  intro v
  induction v with
  | nil => intro _; rfl
  | cons e rest ih =>
    intro h
    obtain ⟨k, vs⟩ := e
    have hk : k ≠ key := h (k, vs) (List.mem_cons_self _ _)
    unfold valuesSet
    rw [if_neg (by simpa using hk)]
    rw [ih (fun e he => h e (List.mem_cons_of_mem _ he))]
    rfl

/-- With distinct keys and no unsupported value, the `GetQueryParams` loop
stores one singleton entry per parameter, in declaration order. -/
theorem getQueryParams_foldl (ps : List MethodParam) :
    ∀ (acc : Values),
      (ps.map (fun p => p.Key)).Nodup →
      (∀ p ∈ ps, ∀ e ∈ acc, e.1 ≠ p.Key) →
      (∀ p ∈ ps, p.Value.isOther = false) →
      ps.foldl getQueryParamsStep acc =
        acc ++ ps.map (fun p => (p.Key, [queryJoinedValue p.Value])) := by
  induction ps with
  | nil => intro acc _ _ _; simp
  | cons p rest ih =>
    intro acc hnodup hfresh hno
    have hstep : getQueryParamsStep acc p = acc ++ [(p.Key, [queryJoinedValue p.Value])] := by
      have hfr : ∀ e ∈ acc, e.1 ≠ p.Key := hfresh p (List.mem_cons_self _ _)
      unfold getQueryParamsStep
      cases hv : p.Value with
      | str s => exact valuesSet_of_fresh _ _ acc hfr
      | strList xs => exact valuesAdd_of_fresh _ _ acc hfr
      | intList xs => exact valuesAdd_of_fresh _ _ acc hfr
      | int n => exact valuesAdd_of_fresh _ _ acc hfr
      | other t r =>
        have := hno p (List.mem_cons_self _ _)
        rw [hv] at this
        simp [ParamValue.isOther] at this
    rw [List.foldl_cons, hstep]
    rw [ih (acc ++ [(p.Key, [queryJoinedValue p.Value])])
      (List.Nodup.of_cons (show (p.Key :: rest.map (fun p => p.Key)).Nodup by
        simpa using hnodup))
      ?_ (fun q hq => hno q (List.mem_cons_of_mem _ hq))]
    · simp
    · intro q hq e he
      rcases List.mem_append.mp he with hacc | hhd
      · exact hfresh q (List.mem_cons_of_mem _ hq) e hacc
      · rcases List.mem_singleton.mp hhd with rfl
        have hnodup' : (p.Key :: rest.map (fun p => p.Key)).Nodup := by
          simpa using hnodup
        have hhead : p.Key ∉ rest.map (fun p => p.Key) :=
          (List.nodup_cons.mp hnodup').1
        intro hcontra
        have hqmem : q.Key ∈ rest.map (fun p => p.Key) :=
          List.mem_map_of_mem (fun p => p.Key) hq
        rw [← show p.Key = q.Key from hcontra] at hqmem
        exact hhead hqmem

/-- `find?` over the stored entries agrees with `find?` over the
parameters. -/
theorem find?_entries_eq_find?_params (ps : List MethodParam) (k : String) :
    (ps.map (fun p => (p.Key, [queryJoinedValue p.Value]))).find?
        (fun e => e.1 == k) =
      (ps.find? (fun p => p.Key == k)).map
        (fun p => (p.Key, [queryJoinedValue p.Value])) := by
  induction ps with
  | nil => rfl
  | cons p rest ih =>
    by_cases hk : (p.Key == k) = true
    · rw [List.map_cons, List.find?_cons_of_pos _ (by exact hk),
        List.find?_cons_of_pos _ (by exact hk)]
      rfl
    · rw [List.map_cons, List.find?_cons_of_neg _ (by exact hk),
        List.find?_cons_of_neg _ (by exact hk)]
      exact ih

/-- Membership is preserved by the insertion sort. -/
theorem mem_insertSorted (x y : String) :
    ∀ (l : List String), y ∈ insertSorted x l ↔ y = x ∨ y ∈ l := by
  intro l
  induction l with
  | nil => simp [insertSorted]
  | cons z zs ih =>
    unfold insertSorted
    by_cases hle : goStringLe x z = true
    · rw [if_pos hle]
      simp
    · rw [if_neg hle]
      simp only [List.mem_cons, ih]
      tauto

/-- Membership is preserved by the sort. -/
theorem mem_sortStrings (y : String) :
    ∀ (l : List String), y ∈ sortStrings l ↔ y ∈ l := by
  intro l
  induction l with
  | nil => simp [sortStrings]
  | cons z zs ih =>
    unfold sortStrings
    rw [mem_insertSorted]
    simp [ih]

/-- Go's string comparison is total. -/
theorem charListLe_total :
    ∀ (a b : List Char), charListLe a b = true ∨ charListLe b a = true := by
  intro a
  induction a with
  | nil => intro b; left; rfl
  | cons c cs ih =>
    intro b
    cases b with
    | nil => right; rfl
    | cons d ds =>
      unfold charListLe
      by_cases hcd : (c.toNat == d.toNat) = true
      · have hcd' : c.toNat = d.toNat := by simpa using hcd
        have hdc : (d.toNat == c.toNat) = true := by simp [hcd']
        rw [if_pos hcd, if_pos hdc]
        exact ih ds
      · have hne : c.toNat ≠ d.toNat := by simpa using hcd
        rw [if_neg (by simpa using hcd),
          if_neg (by simp only [beq_iff_eq]; omega)]
        simp only [Nat.blt_eq]
        omega

/-- Go's string `<=` is total. -/
theorem goStringLe_total (a b : String) :
    goStringLe a b = true ∨ goStringLe b a = true :=
  charListLe_total a.data b.data

/-- Inserting into a `goStringLe`-ordered list keeps it ordered. -/
theorem chain'_insertSorted (x : String) :
    ∀ (l : List String),
      List.Chain' (fun a b => goStringLe a b = true) l →
      List.Chain' (fun a b => goStringLe a b = true) (insertSorted x l) := by
  intro l
  induction l with
  | nil => intro _; simp [insertSorted]
  | cons y ys ih =>
    intro hch
    unfold insertSorted
    by_cases hle : goStringLe x y = true
    · rw [if_pos hle]
      exact List.Chain'.cons hle hch
    · rw [if_neg hle]
      have hyx : goStringLe y x = true := by
        rcases goStringLe_total x y with h | h
        · exact absurd h hle
        · exact h
      have htail := ih (List.Chain'.tail hch)
      cases ys with
      | nil =>
        simp only [insertSorted]
        exact List.chain'_pair.mpr hyx
      | cons z zs =>
        refine List.chain'_cons'.mpr ⟨?_, htail⟩
        intro b hb
        unfold insertSorted at hb
        by_cases hz : goStringLe x z = true
        · rw [if_pos hz] at hb
          simp only [List.head?_cons, Option.mem_def, Option.some.injEq] at hb
          subst hb
          exact hyx
        · rw [if_neg hz] at hb
          simp only [List.head?_cons, Option.mem_def, Option.some.injEq] at hb
          subst hb
          exact (List.chain'_cons.mp hch).1

/-- The sorted key list is ordered under Go's string comparison. -/
theorem chain'_sortStrings :
    ∀ (l : List String),
      List.Chain' (fun a b => goStringLe a b = true) (sortStrings l) := by
  intro l
  induction l with
  | nil => simp [sortStrings]
  | cons x xs ih => exact chain'_insertSorted x (sortStrings xs) ih

/-- With distinct keys, `find?` at a parameter's own key returns that
parameter. -/
theorem find?_key_self (ps : List MethodParam)
    (hnodup : (ps.map (fun p => p.Key)).Nodup) (p : MethodParam)
    (hp : p ∈ ps) : ps.find? (fun q => q.Key == p.Key) = some p := by
  induction ps with
  | nil => cases hp
  | cons q rest ih =>
    rcases List.mem_cons.mp hp with rfl | hmem
    · rw [List.find?_cons_of_pos _ (by simp)]
    · have hnodup' : (q.Key :: rest.map (fun p => p.Key)).Nodup := by
        simpa using hnodup
      have hne : q.Key ≠ p.Key := by
        intro hcontra
        have hpmem : p.Key ∈ rest.map (fun p => p.Key) :=
          List.mem_map_of_mem (fun p => p.Key) hmem
        rw [← hcontra] at hpmem
        exact (List.nodup_cons.mp hnodup').1 hpmem
      rw [List.find?_cons_of_neg _ (by simpa using hne)]
      exact ih (List.Nodup.of_cons hnodup') hmem

/-- `Encode` of singleton entries with distinct keys: one fragment per
key, keys in sorted order, each fragment `escape(key)=escape(value)`. -/
theorem valuesEncode_of_params (ps : List MethodParam)
    (hnodup : (ps.map (fun p => p.Key)).Nodup) :
    valuesEncode (ps.map (fun p => (p.Key, [queryJoinedValue p.Value]))) =
      String.intercalate "&"
        ((sortStrings (ps.map (fun p => p.Key))).map (fun k =>
          match ps.find? (fun p => p.Key == k) with
          | some p => queryEscape k ++ "=" ++ queryEscape (queryJoinedValue p.Value)
          | none => "")) := by
  unfold valuesEncode
  have hkeys : (ps.map (fun p => (p.Key, [queryJoinedValue p.Value]))).map Prod.fst =
      ps.map (fun p => p.Key) := by
    simp
  rw [hkeys]
  congr 1
  have hmem : ∀ k ∈ sortStrings (ps.map (fun p => p.Key)),
      ∃ p, ps.find? (fun q => q.Key == k) = some p := by
    intro k hk
    have : k ∈ ps.map (fun p => p.Key) := (mem_sortStrings k _).mp hk
    obtain ⟨p, hp, hpk⟩ := List.mem_map.mp this
    exact ⟨p, hpk ▸ find?_key_self ps hnodup p hp⟩
  generalize sortStrings (ps.map (fun p => p.Key)) = ks at hmem ⊢
  induction ks with
  | nil => rfl
  | cons k rest ih =>
    rw [List.flatMap_cons, List.map_cons]
    obtain ⟨p, hp⟩ := hmem k (List.mem_cons_self _ _)
    rw [find?_entries_eq_find?_params, hp]
    rw [ih (fun k' hk' => hmem k' (List.mem_cons_of_mem _ hk'))]
    rfl

/-- **C7.**  A QueryString descriptor dispatched through `CallMethod` gets
its query string from `Method.GetQueryParams` and `url.Values.Encode`, not
from `ParseUri`: the request's raw query is exactly the `Encode` of the
stored values; it consists of one `escape(key)=escape(value)` fragment per
parameter with the keys in `Encode`'s sorted order rather than declaration
order; and a parameter with an empty string or empty list value still
contributes the fragment `key=` instead of being omitted. -/
theorem callQueryMethod_encode_semantics (c : Client) (transport : Transport)
    (m : Method)
    (h1 : m.ParamType = methodParamTypeQueryString)
    (h2 : (m.Params.map (fun p => p.Key)).Nodup)
    (h3 : ∀ p ∈ m.Params, p.Value.isOther = false) :
    (c.callMethod m transport).rawQuery = valuesEncode m.getQueryParams ∧
    valuesEncode m.getQueryParams =
      String.intercalate "&"
        ((sortStrings (m.Params.map (fun p => p.Key))).map (fun k =>
          match m.Params.find? (fun p => p.Key == k) with
          | some p => queryEscape k ++ "=" ++ queryEscape (queryJoinedValue p.Value)
          | none => "")) ∧
    (∀ p ∈ m.Params,
      (p.Value = .str "" ∨ p.Value = .strList [] ∨ p.Value = .intList []) →
      (queryEscape p.Key ++ "=") ∈
        ((sortStrings (m.Params.map (fun p => p.Key))).map (fun k =>
          match m.Params.find? (fun p => p.Key == k) with
          | some p => queryEscape k ++ "=" ++ queryEscape (queryJoinedValue p.Value)
          | none => ""))) ∧
    List.Chain' (fun a b => goStringLe a b = true)
      (sortStrings (m.Params.map (fun p => p.Key))) := by
  have hqp : m.getQueryParams =
      m.Params.map (fun p => (p.Key, [queryJoinedValue p.Value])) := by
    unfold Method.getQueryParams
    rw [h1]
    rw [if_pos (by decide)]
    rw [getQueryParams_foldl m.Params []
      h2 (fun p _ e he => absurd he (List.not_mem_nil e)) h3]
    rfl
  refine ⟨?_, ?_, ?_, chain'_sortStrings _⟩
  · unfold Client.callMethod
    rw [h1]
    rw [if_neg (by decide), if_pos (by decide)]
    rfl
  · rw [hqp]
    exact valuesEncode_of_params m.Params h2
  · intro p hp hempty
    have hfind := find?_key_self m.Params h2 p hp
    have hval : queryJoinedValue p.Value = "" := by
      rcases hempty with h | h | h <;> rw [h] <;> rfl
    refine List.mem_map.mpr
      ⟨p.Key, (mem_sortStrings _ _).mpr (List.mem_map_of_mem _ hp), ?_⟩
    rw [hfind]
    dsimp only
    rw [hval]
    show queryEscape p.Key ++ "=" ++ "" = queryEscape p.Key ++ "="
    exact String.append_empty _

/-- Witness for C7: the query-string build of
`{tags: ["a","b"], n: 3, e: "", addr: []}` emits `e=` and `addr=` and
sorts the keys (`addr`, `e`, `n`, `tags`), escaping the comma. -/
theorem callQueryMethod_encode_semantics_witness :
    (newClient.callMethod
        { Name := "", HttpMethod := "GET", URI := "/check-by-addresses",
          MoreInfo := "", ParamType := methodParamTypeQueryString,
          RequiredParams := [],
          Params := [⟨"tags", .strList ["a", "b"]⟩, ⟨"n", .int 3⟩,
            ⟨"e", .str ""⟩, ⟨"addr", .strList []⟩] }
        (fun _ => .response 200 "200 OK" Json.null)).rawQuery =
      "addr=&e=&n=3&tags=a%2Cb" := by
  have h := callQueryMethod_encode_semantics newClient
    (fun _ => .response 200 "200 OK" Json.null)
    { Name := "", HttpMethod := "GET", URI := "/check-by-addresses",
      MoreInfo := "", ParamType := methodParamTypeQueryString,
      RequiredParams := [],
      Params := [⟨"tags", .strList ["a", "b"]⟩, ⟨"n", .int 3⟩,
        ⟨"e", .str ""⟩, ⟨"addr", .strList []⟩] }
    rfl (by decide) (by decide)
  rw [h.1, h.2.1]
  rfl

/-- The tolerant decode yields a nil pointer only on the JSON literal
`null`. -/
theorem decodeSourceCodesTolerant_ok_none (body : Json)
    (h : decodeSourceCodesTolerant body = .ok none) : body = .null := by
  cases body with
  | null => rfl
  | str s =>
    unfold decodeSourceCodesTolerant at h
    rw [show decodeSourceCodesPtr (.str s) =
      .error (topLevelTypeErr "string" "sourcify.SourceCodes") from rfl] at h
    dsimp only at h
    rw [if_neg (by decide)] at h
    cases h
  | bool b =>
    unfold decodeSourceCodesTolerant at h
    rw [show decodeSourceCodesPtr (.bool b) =
      .error (topLevelTypeErr "bool" "sourcify.SourceCodes") from rfl] at h
    dsimp only at h
    rw [if_neg (by decide)] at h
    cases h
  | num n =>
    unfold decodeSourceCodesTolerant at h
    rw [show decodeSourceCodesPtr (.num n) =
      .error (topLevelTypeErr "number" "sourcify.SourceCodes") from rfl] at h
    dsimp only at h
    rw [if_neg (by decide)] at h
    cases h
  | arr items =>
    unfold decodeSourceCodesTolerant at h
    rw [show decodeSourceCodesPtr (.arr items) =
      .error (topLevelTypeErr "array" "sourcify.SourceCodes") from rfl] at h
    dsimp only at h
    rw [if_pos (by decide)] at h
    cases hl : decodeSourceCodeList (.arr items) with
    | ok code => rw [hl] at h; cases h
    | error e => rw [hl] at h; cases h
  | obj fields =>
    unfold decodeSourceCodesTolerant at h
    cases hp : decodeSourceCodesPtr (.obj fields) with
    | ok v =>
      rw [hp] at h
      injection h with h
      subst h
      unfold decodeSourceCodesPtr at hp
      dsimp only at hp
      cases hf : decodeSourceCodesFields ⟨"", []⟩ fields with
      | ok sc => rw [hf] at hp; cases hp
      | error e => rw [hf] at hp; cases hp
    | error e =>
      rw [hp] at h
      dsimp only at h
      by_cases hc : goContains e "cannot unmarshal array into Go value" = true
      · rw [if_pos hc] at h
        rw [show decodeSourceCodeList (.obj fields) =
          .error (topLevelTypeErr "object" "[]sourcify.SourceCode") from rfl] at h
        cases h
      · rw [if_neg hc] at h
        cases h

/-- **C10 counterexample.**  A 200 response whose body is the JSON
literal `null` makes `GetContractSourceCode` return a nil result together
with a nil error — the "never neither" half of the claim fails on the
code, because `json.Unmarshal` sets the pointer target to nil on `null`
without reporting an error. -/
theorem operation_nil_result_nil_error_counterexample :
    getContractSourceCode newClient (fun _ => .response 200 "200 OK" Json.null)
      1 "0xdAC17F958D2ee523a2206206994597C13D831ec7" methodMatchTypeFull =
      (none, none) := by
  rfl

/-- **C10 (amended).**  Every modelled public operation returns at most
one of result and error — never both; a nil result together with a nil
error occurs only when the dispatch succeeded with status 200 and the
body was the JSON literal `null` decoded into a pointer target (as in
`GetContractSourceCode`); and `GetContractsByChainId` always returns a nil
result with a non-nil error (its descriptor kind is rejected by
`CallMethod`), so it never returns "neither" at all. -/
theorem operations_result_error_discipline (c : Client) (transport : Transport)
    (chainId : Int) (addressHex matchType sort afterMatchId : String)
    (limit : Int) :
    (¬((getContractSourceCode c transport chainId addressHex matchType).1.isSome = true ∧
       (getContractSourceCode c transport chainId addressHex matchType).2.isSome = true)) ∧
    ((getContractSourceCode c transport chainId addressHex matchType).1 = none ∧
       (getContractSourceCode c transport chainId addressHex matchType).2 = none →
      ∃ m, sourceCodeMethod chainId addressHex matchType = some m ∧
        (c.callMethod m transport).error = none ∧
        (c.callMethod m transport).status = 200 ∧
        (c.callMethod m transport).body = some Json.null) ∧
    (getContractsByChainId c transport chainId sort afterMatchId limit).1 = none ∧
    (getContractsByChainId c transport chainId sort afterMatchId limit).2.isSome = true := by
  have hgc : ∀ v e, getContractSourceCode c transport chainId addressHex matchType = (v, e) →
      (v.isSome = true → e = none) ∧
      (v = none → e = none →
        ∃ m, sourceCodeMethod chainId addressHex matchType = some m ∧
          (c.callMethod m transport).error = none ∧
          (c.callMethod m transport).status = 200 ∧
          (c.callMethod m transport).body = some Json.null) := by
    intro v e hve
    unfold getContractSourceCode at hve
    cases hm : sourceCodeMethod chainId addressHex matchType with
    | none =>
      rw [hm] at hve
      injection hve with hv he
      subst hv
      subst he
      exact ⟨fun hcontra => (by cases hcontra), fun _ hcontra => (by cases hcontra)⟩
    | some method =>
      rw [hm] at hve
      dsimp only at hve
      cases hver : method.verify with
      | some err =>
        rw [hver] at hve
        injection hve with hv he
        subst hv
        subst he
        exact ⟨fun hcontra => (by cases hcontra), fun _ hcontra => (by cases hcontra)⟩
      | none =>
        rw [hver] at hve
        dsimp only at hve
        cases hr : (c.callMethod method transport).error with
        | some err =>
          rw [hr] at hve
          injection hve with hv he
          subst hv
          subst he
          exact ⟨fun hcontra => (by cases hcontra), fun _ hcontra => (by cases hcontra)⟩
        | none =>
          rw [hr] at hve
          dsimp only at hve
          cases hb : (c.callMethod method transport).body with
          | none =>
            rw [hb] at hve
            injection hve with hv he
            subst hv
            subst he
            exact ⟨fun hcontra => (by cases hcontra), fun _ hcontra => (by cases hcontra)⟩
          | some body =>
            rw [hb] at hve
            dsimp only at hve
            by_cases hst : ((c.callMethod method transport).status != 200) = true
            · rw [if_pos hst] at hve
              injection hve with hv he
              subst hv
              subst he
              exact ⟨fun hcontra => (by cases hcontra), fun _ hcontra => (by cases hcontra)⟩
            · rw [if_neg hst] at hve
              have hs200 : (c.callMethod method transport).status = 200 := by
                simpa using hst
              cases hd : decodeSourceCodesTolerant body with
              | error derr =>
                rw [hd] at hve
                injection hve with hv he
                subst hv
                subst he
                exact ⟨fun hcontra => (by cases hcontra), fun _ hcontra => (by cases hcontra)⟩
              | ok dv =>
                rw [hd] at hve
                injection hve with hv he
                subst hv
                subst he
                refine ⟨fun _ => rfl, ?_⟩
                intro hnone _
                subst hnone
                have hbody : body = Json.null :=
                  decodeSourceCodesTolerant_ok_none body hd
                subst hbody
                exact ⟨method, rfl, hr, hs200, hb⟩
  obtain ⟨h1, h2⟩ := hgc
    (getContractSourceCode c transport chainId addressHex matchType).1
    (getContractSourceCode c transport chainId addressHex matchType).2
    rfl
  refine ⟨?_, ?_, ?_, ?_⟩
  · rintro ⟨hsome, hesome⟩
    rw [h1 hsome] at hesome
    cases hesome
  · intro hne
    exact h2 hne.1 hne.2
  · rfl
  · rfl

/-- Witness for C10 (amended): the concrete nil/nil outcome satisfies the
amended clause — it indeed arises from a 200-status `null` body. -/
theorem operations_result_error_discipline_witness :
    ∃ m, sourceCodeMethod 1 "0xdAC17F958D2ee523a2206206994597C13D831ec7"
        methodMatchTypeFull = some m ∧
      (newClient.callMethod m (fun _ => .response 200 "200 OK" Json.null)).error = none ∧
      (newClient.callMethod m (fun _ => .response 200 "200 OK" Json.null)).status = 200 ∧
      (newClient.callMethod m (fun _ => .response 200 "200 OK" Json.null)).body =
        some Json.null :=
  (operations_result_error_discipline newClient
    (fun _ => .response 200 "200 OK" Json.null) 1
    "0xdAC17F958D2ee523a2206206994597C13D831ec7" methodMatchTypeFull
    "" "" 10).2.1 ⟨rfl, rfl⟩

end SourcifyGo

